import Mathlib

/-! SnakeGameInGO: the game-state machine of `main.go`

A shallow embedding of the state machine in `src/main.go` (direction debounce,
per-tick movement and collision handling, food spawning) together with the
properties proved about it.

Modelling conventions.

* Go `int` is modelled by `Int`: every coordinate is bounded by the terminal
  size and the score by the number of grid cells, far from the machine-word
  range, so no wrap-around is involved.  Go's truncating `/` and `%` are
  `Int.tdiv` and `Int.tmod`.
* `[]*loc` is modelled by `List loc`: a `loc` is never mutated once it has been
  appended to the snake, so pointer identity plays no role.  `*loc` that may be
  `nil` (the heart) is `Option loc`.
* The mutex is not modelled: `changeDirection` and `updateSnake` hold it for
  their whole body, so each call is one atomic transition of the state.
* Drawing (`clearScreen`, `draw`) only writes to the screen and is left out.
* `os.Exit` inside `gameOver`, a run-time panic, and the `goto` loop of `addheart`
  still running are the three ways a call does not return: the `Stop` values.
* The values returned by `rand.Intn` are an explicit input: a list of draws,
  one pair `(rand.Intn(width), rand.Intn(height))` for each call of
  `generateRandomLocation`, consumed from the front.
-/

namespace Snake

/-- Grid position, `type loc struct { x int; y int }`. -/
@[ext]
structure loc where
  x : Int
  y : Int
deriving DecidableEq, Repr

/-- Go `type direction int`. -/
abbrev direction := Int

namespace direction

/-- Constant `none direction = 0`. -/
def none : direction := 0
/-- Constant `up = 1`. -/
def up : direction := 1
/-- Constant `right = 2`. -/
def right : direction := 2
/-- Constant `down = 3`. -/
def down : direction := 3
/-- Constant `left = 4`. -/
def left : direction := 4

end direction

/-- The game state, `type gameState struct` (the `lock` field is not modelled). -/
structure gameState where
  snake : List loc
  heart : Option loc
  score : Int
  heading : direction
  lastHeading : direction
  width : Int
  height : Int
deriving DecidableEq, Repr

/-- Ways in which a call does not return to its caller. -/
inductive Stop where
  /-- `gameOver`: the screen is closed, `DEAD` is printed, `os.Exit(0)`. -/
  | dead
  /-- A run-time panic: index out of range, or `rand.Intn(n)` with `n ≤ 0`. -/
  | crash
  /-- The `goto` loop of `addheart` rejected every draw supplied so far. -/
  | spin
deriving DecidableEq, Repr

/-- One pair of values `(rand.Intn(width), rand.Intn(height))`. -/
abbrev Draw := Int × Int

/-- The state built in `main` from the terminal size returned by `screen.Size()`. -/
def initState (termWidth termHeight : Int) : gameState :=
  let width := termWidth
  let height := termHeight - 1
  let halfWidth := width.tdiv 2
  { snake := [⟨halfWidth - halfWidth.tmod 2, height - 1⟩]
    heart := Option.none
    score := 0
    heading := direction.up
    lastHeading := direction.none
    width := width
    height := height }

/-- Method `changeDirection`: a request is stored only while `heading` is `none`. -/
def changeDirection (state : gameState) (newDirection : direction) : gameState :=
  if state.heading = direction.none then
    if state.snake.length = 1
        ∨ (state.lastHeading = direction.up ∧ newDirection ≠ direction.down)
        ∨ (state.lastHeading = direction.left ∧ newDirection ≠ direction.right)
        ∨ (state.lastHeading = direction.right ∧ newDirection ≠ direction.left)
        ∨ (state.lastHeading = direction.down ∧ newDirection ≠ direction.up) then
      { state with heading := newDirection }
    else state
  else state

/-- Function `generateRandomLocation`; `draw` holds the two values returned by
`rand.Intn(width)` and `rand.Intn(height)`, and `rand.Intn(n)` panics for `n ≤ 0`. -/
def generateRandomLocation (width height : Int) (draw : Draw) : Except Stop (Int × Int) :=
  if width ≤ 0 then .error .crash
  else
    let x := draw.1
    if height ≤ 0 then .error .crash
    else
      let y := draw.2
      let x := if x.tmod 2 ≠ 0 then x + 1 else x
      let x := if x ≥ width - 1 then x - 2 else x
      .ok (x, y)

/-- Method `addheart`: draw locations until one is not on the snake.  Returns the
updated state and the draws left over. -/
def addheart (state : gameState) : List Draw → Except Stop (gameState × List Draw)
  | [] => .error .spin
  | draw :: rest =>
    match generateRandomLocation state.width state.height draw with
    | .error e => .error e
    | .ok (newheartX, newheartY) =>
      if state.snake.any (fun bodyPart => newheartX = bodyPart.x ∧ newheartY = bodyPart.y) then
        addheart state rest
      else
        .ok ({ state with heart := some ⟨newheartX, newheartY⟩ }, rest)

/-- Method `updateSnake`: one tick.  Returns the updated state and the draws left over. -/
def updateSnake (state : gameState) (draws : List Draw) : Except Stop (gameState × List Draw) :=
  match state.snake with
  | [] => .error .crash
  | tail :: body =>
    let oldHead :=
      if state.snake.length = 0 then tail
      else (tail :: body).getLast (List.cons_ne_nil tail body)
    if oldHead.y < 0 ∨ oldHead.y ≥ state.height ∨ oldHead.x < 0 ∨ oldHead.x ≥ state.width then
      .error .dead
    else
      let heading := if state.heading = direction.none then state.lastHeading else state.heading
      let newHead : loc :=
        if heading = direction.up then ⟨oldHead.x, oldHead.y - 1⟩
        else if heading = direction.right then ⟨oldHead.x + 2, oldHead.y⟩
        else if heading = direction.down then ⟨oldHead.x, oldHead.y + 1⟩
        else if heading = direction.left then ⟨oldHead.x - 2, oldHead.y⟩
        else ⟨oldHead.x, oldHead.y⟩
      if state.snake.any (fun bodyPart => bodyPart.x = newHead.x ∧ bodyPart.y = newHead.y) then
        .error .dead
      else
        let fed : Except Stop (Bool × gameState × List Draw) :=
          match state.heart with
          | Option.none =>
            match addheart state draws with
            | .error e => .error e
            | .ok (state1, draws1) => .ok (false, state1, draws1)
          | some heart =>
            if newHead.x = heart.x ∧ newHead.y = heart.y then
              match addheart { state with score := state.score + 1 } draws with
              | .error e => .error e
              | .ok (state1, draws1) => .ok (true, state1, draws1)
            else .ok (false, state, draws)
        match fed with
        | .error e => .error e
        | .ok (grow, state1, draws1) =>
          let state2 := if !grow then { state1 with snake := state1.snake.drop 1 } else state1
          let state3 := { state2 with snake := state2.snake ++ [newHead] }
          .ok ({ state3 with lastHeading := heading, heading := direction.none }, draws1)

/-! ## Vocabulary of the specification -/

/-- The direction a tick moves in: `heading` if it is not `none`, else `lastHeading`. -/
def effectiveHeading (s : gameState) : direction :=
  if s.heading ≠ direction.none then s.heading else s.lastHeading

/-- One step of a cell: `(0,-1)` for up, `(+2,0)` for right, `(0,+1)` for down,
`(-2,0)` for left; any other value moves nothing. -/
def displace (d : direction) (c : loc) : loc :=
  if d = direction.up then ⟨c.x, c.y - 1⟩
  else if d = direction.right then ⟨c.x + 2, c.y⟩
  else if d = direction.down then ⟨c.x, c.y + 1⟩
  else if d = direction.left then ⟨c.x - 2, c.y⟩
  else c

/-- The cell lies in `[0,width) × [0,height)`. -/
def inGrid (s : gameState) (c : loc) : Prop :=
  0 ≤ c.x ∧ c.x < s.width ∧ 0 ≤ c.y ∧ c.y < s.height

instance (s : gameState) (c : loc) : Decidable (inGrid s c) := by
  unfold inGrid; infer_instance

/-- One of the four directions `up`, `right`, `down`, `left`. -/
def isMove (d : direction) : Prop :=
  d = direction.up ∨ d = direction.right ∨ d = direction.down ∨ d = direction.left

instance (d : direction) : Decidable (isMove d) := by
  unfold isMove; infer_instance

/-- The 180-degree reversal: up/down and left/right are exchanged. -/
def opposite (d : direction) : direction :=
  if d = direction.up then direction.down
  else if d = direction.down then direction.up
  else if d = direction.left then direction.right
  else if d = direction.right then direction.left
  else d

/-- Number of calls, in a run of `changeDirection` calls with no tick in between,
that change the state. -/
def changesApplied (s : gameState) : List direction → Nat
  | [] => 0
  | d :: ds =>
    (if changeDirection s d ≠ s then 1 else 0) + changesApplied (changeDirection s d) ds

/-- States reachable from a state built in `main` by `changeDirection` calls and by
ticks that return. -/
inductive Reachable : gameState → Prop
  | init (termWidth termHeight : Int) : Reachable (initState termWidth termHeight)
  | turn (s : gameState) (d : direction) : Reachable s → Reachable (changeDirection s d)
  | tick (s s' : gameState) (draws rest : List Draw) :
      Reachable s → updateSnake s draws = .ok (s', rest) → Reachable s'

/-! ## Concrete states used to instantiate the theorems -/

/-- The state `main` builds on a terminal of 10 columns and 11 rows. -/
def startState : gameState := initState 10 11

/-- A snake of length 1 one step below its food, moving up. -/
def feedState : gameState :=
  { snake := [⟨4, 9⟩], heart := some ⟨4, 8⟩, score := 0, heading := direction.none,
    lastHeading := direction.up, width := 10, height := 10 }

/-- The state `feedState` after its tick with the draw `(0, 0)`. -/
def fedState : gameState :=
  { snake := [⟨4, 9⟩, ⟨4, 8⟩], heart := some ⟨0, 0⟩, score := 1, heading := direction.none,
    lastHeading := direction.up, width := 10, height := 10 }

/-- Head at `(8,9)` on a 10 by 10 grid, moving right, food elsewhere. -/
def edgeState : gameState :=
  { snake := [⟨8, 9⟩], heart := some ⟨0, 0⟩, score := 0, heading := direction.none,
    lastHeading := direction.right, width := 10, height := 10 }

/-- The state `edgeState` after one tick: the head is at `(10,9)`. -/
def overEdgeState : gameState :=
  { snake := [⟨10, 9⟩], heart := some ⟨0, 0⟩, score := 0, heading := direction.none,
    lastHeading := direction.right, width := 10, height := 10 }

/-- The state built on a terminal of 20 columns and 11 rows, after its first tick
with the draw `(10, 7)`. -/
def secondState : gameState :=
  { snake := [⟨10, 8⟩], heart := some ⟨10, 7⟩, score := 0, heading := direction.none,
    lastHeading := direction.up, width := 20, height := 10 }

/-- The state `secondState` after its tick with the draw `(0, 0)`: the snake has grown. -/
def grownState : gameState :=
  { snake := [⟨10, 8⟩, ⟨10, 7⟩], heart := some ⟨0, 0⟩, score := 1, heading := direction.none,
    lastHeading := direction.up, width := 20, height := 10 }

/-- A grid of 2 columns and 1 row whose only producible location `(0,0)` is occupied
by the snake. -/
def fullState : gameState :=
  { snake := [⟨0, 0⟩], heart := Option.none, score := 0, heading := direction.none,
    lastHeading := direction.up, width := 2, height := 1 }

/-- The state `main` builds on a terminal of 2 columns and 2 rows: a grid of 2 columns
and 1 row with the snake on `(0,0)`, the only location food can be generated at. -/
def tinyStart : gameState := initState 2 2

/-! ## Auxiliary lemmas -/

theorem any_cell_iff (snake : List loc) (c : loc) :
    snake.any (fun bodyPart => decide (bodyPart.x = c.x ∧ bodyPart.y = c.y)) = true ↔ c ∈ snake := by
  simp only [List.any_eq_true, decide_eq_true_eq]
  constructor
  · rintro ⟨b, hb, hx, hy⟩
    have : b = c := loc.ext hx hy
    exact this ▸ hb
  · intro h
    exact ⟨c, h, rfl, rfl⟩

theorem any_cell_iff_swap (snake : List loc) (x y : Int) :
    snake.any (fun bodyPart => decide (x = bodyPart.x ∧ y = bodyPart.y)) = true
      ↔ (⟨x, y⟩ : loc) ∈ snake := by
  simp only [List.any_eq_true, decide_eq_true_eq]
  constructor
  · rintro ⟨b, hb, hx, hy⟩
    have : b = ⟨x, y⟩ := loc.ext hx.symm hy.symm
    exact this ▸ hb
  · intro h
    exact ⟨⟨x, y⟩, h, rfl, rfl⟩

theorem addheart_ok (s : gameState) : ∀ (draws rest : List Draw) (s1 : gameState),
    addheart s draws = .ok (s1, rest) →
    ∃ (used : List Draw) (d : Draw) (h : loc),
      draws = used ++ d :: rest ∧
      generateRandomLocation s.width s.height d = .ok (h.x, h.y) ∧
      h ∉ s.snake ∧
      (∀ u ∈ used, ∃ c : loc, generateRandomLocation s.width s.height u = .ok (c.x, c.y) ∧ c ∈ s.snake) ∧
      s1 = { s with heart := some h } := by
  intro draws
  induction draws with
  | nil => intro rest s1 h; simp [addheart] at h
  | cons d ds ih =>
    intro rest s1 h
    unfold addheart at h
    split at h
    · simp at h
    · rename_i x y hg
      split at h
      · rename_i hany
        obtain ⟨used, d1, c, h1, h2, h3, h4, h5⟩ := ih rest s1 h
        refine ⟨d :: used, d1, c, by simp [h1], h2, h3, ?_, h5⟩
        intro u hu
        rcases List.mem_cons.1 hu with rfl | hu
        · exact ⟨⟨x, y⟩, hg, (any_cell_iff_swap s.snake x y).1 hany⟩
        · exact h4 u hu
      · rename_i hany
        simp only [Except.ok.injEq, Prod.mk.injEq] at h
        refine ⟨[], d, ⟨x, y⟩, by simp [h.2], hg, ?_, by simp, h.1.symm⟩
        intro hmem
        exact hany ((any_cell_iff_swap s.snake x y).2 hmem)

theorem updateSnake_eq (s : gameState) (draws : List Draw) (body : List loc) (head : loc)
    (hs : s.snake = body ++ [head]) :
    updateSnake s draws =
      if ¬ inGrid s head then .error .dead
      else if displace (effectiveHeading s) head ∈ s.snake then .error .dead
      else
        match s.heart with
        | Option.none =>
          match addheart s draws with
          | .error e => .error e
          | .ok (s1, d1) =>
            .ok ({ s1 with snake := s1.snake.drop 1 ++ [displace (effectiveHeading s) head],
                           lastHeading := effectiveHeading s, heading := direction.none }, d1)
        | some f =>
          if displace (effectiveHeading s) head = f then
            match addheart { s with score := s.score + 1 } draws with
            | .error e => .error e
            | .ok (s1, d1) =>
              .ok ({ s1 with snake := s1.snake ++ [displace (effectiveHeading s) head],
                             lastHeading := effectiveHeading s, heading := direction.none }, d1)
          else
            .ok ({ s with snake := s.snake.drop 1 ++ [displace (effectiveHeading s) head],
                          lastHeading := effectiveHeading s, heading := direction.none }, draws) := by
  have hnh : (if effectiveHeading s = direction.up then (⟨head.x, head.y - 1⟩ : loc)
      else if effectiveHeading s = direction.right then ⟨head.x + 2, head.y⟩
      else if effectiveHeading s = direction.down then ⟨head.x, head.y + 1⟩
      else if effectiveHeading s = direction.left then ⟨head.x - 2, head.y⟩
      else ⟨head.x, head.y⟩) = displace (effectiveHeading s) head := rfl
  have he : (if s.heading = direction.none then s.lastHeading else s.heading) = effectiveHeading s := by
    unfold effectiveHeading; by_cases h : s.heading = direction.none <;> simp [h]
  have hgrid : (head.y < 0 ∨ head.y ≥ s.height ∨ head.x < 0 ∨ head.x ≥ s.width) ↔ ¬ inGrid s head := by
    unfold inGrid; omega
  unfold updateSnake
  split
  · rename_i h0; rw [hs] at h0; simp at h0
  · rename_i tail body1 h0
    have hne : s.snake.length ≠ 0 := by rw [hs]; simp
    have hlast : (tail :: body1).getLast (List.cons_ne_nil tail body1) = head := by
      have : tail :: body1 = body ++ [head] := by rw [← h0, hs]
      simp [this]
    simp only [hne, if_false, hlast, hnh, he]
    by_cases hg : inGrid s head
    · rw [if_neg (by rw [hgrid]; exact not_not.2 hg), if_neg (not_not.2 hg)]
      by_cases hm : displace (effectiveHeading s) head ∈ s.snake
      · rw [if_pos ((any_cell_iff _ _).2 hm), if_pos hm]
      · rw [if_neg (fun h => hm ((any_cell_iff _ _).1 h)), if_neg hm]
        cases hh : s.heart with
        | none =>
          simp only []
          cases ha : addheart s draws with
          | error e => simp
          | ok p => obtain ⟨s1, d1⟩ := p; simp
        | some f =>
          simp only []
          by_cases hf : displace (effectiveHeading s) head = f
          · have hf2 : (displace (effectiveHeading s) head).x = f.x ∧ (displace (effectiveHeading s) head).y = f.y := by
              rw [hf]; exact ⟨rfl, rfl⟩
            rw [if_pos hf2, if_pos hf]
            generalize addheart (gameState.mk s.snake (some f) (s.score + 1) s.heading
              s.lastHeading s.width s.height) draws = r
            cases r with
            | error e => simp
            | ok p => obtain ⟨s1, d1⟩ := p; simp
          · have hf2 : ¬ ((displace (effectiveHeading s) head).x = f.x ∧ (displace (effectiveHeading s) head).y = f.y) := by
              intro h; exact hf (loc.ext h.1 h.2)
            rw [if_neg hf2, if_neg hf]
            simp [hh]
    · rw [if_pos (hgrid.2 hg), if_pos hg]
theorem generateRandomLocation_ne_dead (width height : Int) (d : Draw) :
    generateRandomLocation width height d ≠ .error .dead := by
  unfold generateRandomLocation
  split
  · simp
  · split <;> simp

theorem addheart_ne_dead (s : gameState) (draws : List Draw) :
    addheart s draws ≠ .error .dead := by
  induction draws with
  | nil => simp [addheart]
  | cons d ds ih =>
    unfold addheart
    split
    · rename_i e hg
      intro h
      simp only [Except.error.injEq] at h
      exact generateRandomLocation_ne_dead _ _ _ (h ▸ hg)
    · split
      · exact ih
      · simp

theorem snake_split (snake : List loc) (hne : snake ≠ []) :
    snake = snake.dropLast ++ [snake.getLast hne] :=
  (List.dropLast_append_getLast hne).symm

theorem updateSnake_ok (s s' : gameState) (draws rest : List Draw)
    (h : updateSnake s draws = .ok (s', rest)) :
    ∃ (body : List loc) (head : loc),
      s.snake = body ++ [head] ∧ inGrid s head ∧
      displace (effectiveHeading s) head ∉ s.snake ∧
      ((s.heart = Option.none ∧ ∃ f : loc, f ∉ s.snake ∧
          (∃ d ∈ draws, generateRandomLocation s.width s.height d = .ok (f.x, f.y)) ∧
          s' = { s with heart := some f
                        snake := s.snake.drop 1 ++ [displace (effectiveHeading s) head]
                        lastHeading := effectiveHeading s
                        heading := direction.none })
      ∨ (s.heart = some (displace (effectiveHeading s) head) ∧ ∃ f : loc, f ∉ s.snake ∧
          (∃ d ∈ draws, generateRandomLocation s.width s.height d = .ok (f.x, f.y)) ∧
          s' = { s with heart := some f
                        score := s.score + 1
                        snake := s.snake ++ [displace (effectiveHeading s) head]
                        lastHeading := effectiveHeading s
                        heading := direction.none })
      ∨ (∃ g : loc, s.heart = some g ∧ g ≠ displace (effectiveHeading s) head ∧ rest = draws ∧
          s' = { s with snake := s.snake.drop 1 ++ [displace (effectiveHeading s) head]
                        lastHeading := effectiveHeading s
                        heading := direction.none })) := by
  have hne : s.snake ≠ [] := by
    intro h0
    unfold updateSnake at h
    rw [h0] at h
    simp at h
  refine ⟨s.snake.dropLast, s.snake.getLast hne, snake_split s.snake hne, ?_⟩
  rw [updateSnake_eq s draws _ _ (snake_split s.snake hne)] at h
  split at h
  · simp at h
  rename_i hg
  split at h
  · simp at h
  rename_i hm
  refine ⟨not_not.1 hg, hm, ?_⟩
  split at h
  · rename_i hh
    split at h
    · simp at h
    · rename_i s1 d1 ha
      simp only [Except.ok.injEq, Prod.mk.injEq] at h
      obtain ⟨used, d, f, h1, h2, h3, -, h5⟩ := addheart_ok s draws d1 s1 ha
      refine Or.inl ⟨hh, f, h3, ⟨d, by simp [h1], h2⟩, ?_⟩
      rw [← h.1, h5]
  · rename_i f hh
    split at h
    · rename_i hf
      split at h
      · simp at h
      · rename_i s1 d1 ha
        simp only [Except.ok.injEq, Prod.mk.injEq] at h
        obtain ⟨used, d, f1, h1, h2, h3, -, h5⟩ := addheart_ok _ draws d1 s1 ha
        refine Or.inr (Or.inl ⟨by rw [hh, hf], f1, h3, ⟨d, by simp [h1], h2⟩, ?_⟩)
        rw [← h.1, h5]
    · rename_i hf
      simp only [Except.ok.injEq, Prod.mk.injEq] at h
      exact Or.inr (Or.inr ⟨f, hh, fun e => hf e.symm, h.2.symm, h.1.symm⟩)

theorem changeDirection_blocked (s : gameState) (d : direction)
    (h : s.heading ≠ direction.none) : changeDirection s d = s := by
  unfold changeDirection
  rw [if_neg h]

theorem changesApplied_blocked (ds : List direction) :
    ∀ s : gameState, s.heading ≠ direction.none → changesApplied s ds = 0 := by
  induction ds with
  | nil => intro s _; rfl
  | cons d ds ih =>
    intro s h
    unfold changesApplied
    rw [changeDirection_blocked s d h]
    simp [ih s h]

theorem opposite_ne_none (d : direction) (h : isMove d) : opposite d ≠ direction.none := by
  rcases h with rfl | rfl | rfl | rfl <;> decide

theorem opposite_ne_self (d : direction) (h : isMove d) : d ≠ opposite d := by
  rcases h with rfl | rfl | rfl | rfl <;> decide

theorem isMove_of_displace_ne (d : direction) (c : loc) (h : displace d c ≠ c) : isMove d := by
  unfold displace at h
  unfold isMove
  by_cases h1 : d = direction.up
  · exact Or.inl h1
  by_cases h2 : d = direction.right
  · exact Or.inr (Or.inl h2)
  by_cases h3 : d = direction.down
  · exact Or.inr (Or.inr (Or.inl h3))
  by_cases h4 : d = direction.left
  · exact Or.inr (Or.inr (Or.inr h4))
  simp [h1, h2, h3, h4] at h

theorem displace_back (lh e : direction) (prev : loc) (hm : isMove lh)
    (he : e ≠ opposite lh) : displace e (displace lh prev) ≠ prev := by
  intro h
  have hx := congrArg loc.x h
  have hy := congrArg loc.y h
  rcases hm with rfl | rfl | rfl | rfl <;>
    simp only [displace, opposite, direction.up, direction.right, direction.down,
      direction.left] at he hx hy <;>
    simp at he hx hy <;>
    split_ifs at hx hy <;> simp at hx hy <;> omega

theorem retained_last (body : List loc) (head : loc) (front : List loc) (p : loc)
    (h : (body ++ [head]).drop 1 = front ++ [p]) : p = head := by
  cases body with
  | nil => simp at h
  | cons a b =>
    simp only [List.cons_append, List.drop_succ_cons, List.drop_zero] at h
    have := List.append_inj' h rfl
    simpa using this.2.symm

theorem two_last_of_append (r front : List loc) (n p q : loc)
    (h : r ++ [n] = front ++ [p, q]) : r = front ++ [p] ∧ n = q := by
  have h2 : r ++ [n] = (front ++ [p]) ++ [q] := by simpa using h
  have := List.append_inj' h2 rfl
  exact ⟨this.1, by simpa using this.2⟩

/-- The facts about the two cells nearest the head that hold in every reachable state. -/
theorem reachable_neck (s : gameState) (hr : Reachable s) :
    ∀ (body : List loc) (prev head : loc), s.snake = body ++ [prev, head] →
      isMove s.lastHeading ∧ head = displace s.lastHeading prev
        ∧ s.heading ≠ opposite s.lastHeading := by
  induction hr with
  | init tw th =>
    intro body prev head h
    have := congrArg List.length h
    simp [initState] at this
  | turn s d _ ih =>
    intro body prev head h
    have hsn : (changeDirection s d).snake = s.snake := by
      unfold changeDirection; split
      · split <;> rfl
      · rfl
    have hlh : (changeDirection s d).lastHeading = s.lastHeading := by
      unfold changeDirection; split
      · split <;> rfl
      · rfl
    rw [hsn] at h
    obtain ⟨h1, h2, h3⟩ := ih body prev head h
    rw [hlh]
    refine ⟨h1, h2, ?_⟩
    unfold changeDirection
    split
    · split
      · rename_i hc
        simp only
        have hlen : s.snake.length ≠ 1 := by rw [h]; simp
        rcases hc with hc | ⟨hc, hd⟩ | ⟨hc, hd⟩ | ⟨hc, hd⟩ | ⟨hc, hd⟩
        · exact absurd hc hlen
        all_goals (rw [hc]; exact hd)
      · exact h3
    · exact h3
  | tick s s' draws rest _ hu _ =>
    intro front prev head h
    obtain ⟨body, hd, hs, -, hm, hcase⟩ := updateSnake_ok s s' draws rest hu
    have hmove : isMove (effectiveHeading s) := by
      apply isMove_of_displace_ne _ hd
      intro he
      apply hm
      rw [he, hs]
      simp
    have hfields : s'.lastHeading = effectiveHeading s ∧ s'.heading = direction.none
        ∧ ∃ r : List loc, (r = s.snake ∨ r = s.snake.drop 1)
            ∧ s'.snake = r ++ [displace (effectiveHeading s) hd] := by
      rcases hcase with ⟨-, f, -, -, rfl⟩ | ⟨-, f, -, -, rfl⟩ | ⟨g, -, -, -, rfl⟩
      · exact ⟨rfl, rfl, _, Or.inr rfl, rfl⟩
      · exact ⟨rfl, rfl, _, Or.inl rfl, rfl⟩
      · exact ⟨rfl, rfl, _, Or.inr rfl, rfl⟩
    obtain ⟨hl, hh, r, hr, hsn⟩ := hfields
    rw [hsn] at h
    obtain ⟨hr2, hq⟩ := two_last_of_append _ _ _ _ _ h
    have hprev : prev = hd := by
      rcases hr with hr | hr
      · rw [hr, hs] at hr2
        have := List.append_inj' hr2 rfl
        simpa using this.2.symm
      · rw [hr, hs] at hr2
        exact retained_last _ _ _ _ hr2
    rw [hl, hh]
    refine ⟨hmove, ?_, fun e => opposite_ne_none _ hmove e.symm⟩
    rw [← hq, hprev]

theorem changeDirection_frame (s : gameState) (d : direction) :
    (changeDirection s d).snake = s.snake
    ∧ (changeDirection s d).heart = s.heart
    ∧ (changeDirection s d).score = s.score
    ∧ (changeDirection s d).lastHeading = s.lastHeading
    ∧ (changeDirection s d).width = s.width
    ∧ (changeDirection s d).height = s.height := by
  unfold changeDirection
  split
  · split <;> simp
  · simp

theorem updateSnake_outside (s : gameState) (draws : List Draw) (body : List loc) (head : loc)
    (hs : s.snake = body ++ [head]) (hg : ¬ inGrid s head) :
    updateSnake s draws = .error .dead := by
  rw [updateSnake_eq s draws body head hs, if_pos hg]

theorem tick_dead_iff (s : gameState) (draws : List Draw) (body : List loc) (head : loc)
    (hs : s.snake = body ++ [head]) :
    updateSnake s draws = .error .dead ↔
      (¬ inGrid s head ∨ displace (effectiveHeading s) head ∈ s.snake) := by
  rw [updateSnake_eq s draws body head hs]
  by_cases hg : inGrid s head
  · rw [if_neg (not_not.2 hg)]
    by_cases hm : displace (effectiveHeading s) head ∈ s.snake
    · rw [if_pos hm]; simp [hm]
    · rw [if_neg hm]
      have hrhs : ¬ (¬ inGrid s head ∨ displace (effectiveHeading s) head ∈ s.snake) := by
        rintro (h | h)
        · exact h hg
        · exact hm h
      refine iff_of_false ?_ hrhs
      split
      · split
        · rename_i e ha
          intro h
          simp only [Except.error.injEq] at h
          exact addheart_ne_dead _ _ (h ▸ ha)
        · simp
      · split
        · split
          · rename_i e ha
            intro h
            simp only [Except.error.injEq] at h
            exact addheart_ne_dead _ _ (h ▸ ha)
          · simp
        · simp
  · rw [if_pos hg]; simp [hg]

theorem changeDirection_cond (s : gameState) (d : direction) :
    (s.snake.length = 1
        ∨ (s.lastHeading = direction.up ∧ d ≠ direction.down)
        ∨ (s.lastHeading = direction.left ∧ d ≠ direction.right)
        ∨ (s.lastHeading = direction.right ∧ d ≠ direction.left)
        ∨ (s.lastHeading = direction.down ∧ d ≠ direction.up))
      ↔ (s.snake.length = 1 ∨ (isMove s.lastHeading ∧ d ≠ opposite s.lastHeading)) := by
  unfold isMove opposite direction.up direction.down direction.left direction.right
  constructor
  · rintro (h1 | ⟨h1, h2⟩ | ⟨h1, h2⟩ | ⟨h1, h2⟩ | ⟨h1, h2⟩)
    · exact Or.inl h1
    all_goals (right; rw [h1]; simp; exact h2)
  · rintro (h1 | ⟨h1 | h1 | h1 | h1, h2⟩)
    · exact Or.inl h1
    all_goals (rw [h1] at h2 ⊢; simp at h2; simp [h2])

theorem changeDirection_accept (s : gameState) (d : direction)
    (h : s.heading = direction.none)
    (hc : s.snake.length = 1 ∨ (isMove s.lastHeading ∧ d ≠ opposite s.lastHeading)) :
    changeDirection s d = { s with heading := d } := by
  unfold changeDirection
  rw [if_pos h, if_pos ((changeDirection_cond s d).2 hc)]

theorem addheart_heading (s : gameState) (d : direction) (draws : List Draw) :
    addheart { s with heading := d } draws =
      match addheart s draws with
      | .error e => .error e
      | .ok (s1, r) => .ok ({ s1 with heading := d }, r) := by
  induction draws with
  | nil => simp [addheart]
  | cons dr ds ih =>
    unfold addheart
    simp only []
    split
    · rfl
    · split
      · exact ih
      · rfl

theorem isMove_ne_none (d : direction) (h : isMove d) : d ≠ direction.none := by
  rcases h with rfl | rfl | rfl | rfl <;> decide

theorem updateSnake_heading (s : gameState) (d : direction) (draws : List Draw)
    (h : s.heading = direction.none) (hd : s.lastHeading = d) (hm : isMove d) :
    updateSnake { s with heading := d } draws = updateSnake s draws := by
  by_cases hne : s.snake = []
  · unfold updateSnake
    simp [hne]
  · have he1 : effectiveHeading { s with heading := d } = d := by
      unfold effectiveHeading
      simp [isMove_ne_none d hm]
    have he2 : effectiveHeading s = d := by
      unfold effectiveHeading
      simp [h, hd]
    rw [updateSnake_eq s draws _ _ (snake_split s.snake hne),
      updateSnake_eq { s with heading := d } draws _ _ (snake_split s.snake hne), he1, he2]
    have hg : inGrid { s with heading := d } (s.snake.getLast hne)
        ↔ inGrid s (s.snake.getLast hne) := Iff.rfl
    simp only [hg]
    split
    · rfl
    · split
      · rfl
      · split
        · rw [addheart_heading s d draws]
          generalize addheart s draws = r
          rcases r with e | ⟨s1, r1⟩ <;> rfl
        · split
          · have := addheart_heading { s with score := s.score + 1 } d draws
            simp only [] at this
            rw [this]
            generalize addheart { s with score := s.score + 1 } draws = r
            rcases r with e | ⟨s1, r1⟩ <;> rfl
          · simp [h]

theorem updateSnake_shape (s s' : gameState) (draws rest : List Draw)
    (h : updateSnake s draws = .ok (s', rest)) :
    ∃ (body : List loc) (head : loc),
      s.snake = body ++ [head] ∧ inGrid s head ∧
      displace (effectiveHeading s) head ∉ s.snake ∧
      s'.width = s.width ∧ s'.height = s.height ∧
      s'.heading = direction.none ∧ s'.lastHeading = effectiveHeading s ∧
      ((s'.snake = s.snake ++ [displace (effectiveHeading s) head] ∧ s'.score = s.score + 1)
        ∨ (s'.snake = s.snake.drop 1 ++ [displace (effectiveHeading s) head]
            ∧ s'.score = s.score)) := by
  obtain ⟨body, head, hs, hg, hm, hcase⟩ := updateSnake_ok s s' draws rest h
  refine ⟨body, head, hs, hg, hm, ?_⟩
  rcases hcase with ⟨-, f, -, -, rfl⟩ | ⟨-, f, -, -, rfl⟩ | ⟨g, -, -, -, rfl⟩
  · exact ⟨rfl, rfl, rfl, rfl, Or.inr ⟨rfl, rfl⟩⟩
  · exact ⟨rfl, rfl, rfl, rfl, Or.inl ⟨rfl, rfl⟩⟩
  · exact ⟨rfl, rfl, rfl, rfl, Or.inr ⟨rfl, rfl⟩⟩

theorem generateRandomLocation_pos (width height : Int) (d : Draw)
    (hw : 0 < width) (hh : 0 < height) :
    ∃ x y : Int, generateRandomLocation width height d = .ok (x, y) := by
  unfold generateRandomLocation
  rw [if_neg (by omega), if_neg (by omega)]
  exact ⟨_, _, rfl⟩

theorem addheart_ne_crash (s : gameState) (draws : List Draw)
    (hw : 0 < s.width) (hh : 0 < s.height) : addheart s draws ≠ .error .crash := by
  induction draws with
  | nil => simp [addheart]
  | cons d ds ih =>
    obtain ⟨x, y, hg⟩ := generateRandomLocation_pos s.width s.height d hw hh
    unfold addheart
    rw [hg]
    simp only []
    split
    · exact ih
    · simp

theorem updateSnake_ne_crash (s : gameState) (draws : List Draw) (hne : s.snake ≠ []) :
    updateSnake s draws ≠ .error .crash := by
  rw [updateSnake_eq s draws _ _ (snake_split s.snake hne)]
  split
  · simp
  · rename_i hg
    have hg2 : inGrid s (s.snake.getLast hne) := not_not.1 hg
    have hw : 0 < s.width := by unfold inGrid at hg2; omega
    have hh : 0 < s.height := by unfold inGrid at hg2; omega
    split
    · simp
    · split
      · have := addheart_ne_crash s draws hw hh
        generalize addheart s draws = r at this
        rcases r with e | ⟨s1, r1⟩
        · intro h; simp only [Except.error.injEq] at h; exact this (by rw [h])
        · simp
      · split
        · have := addheart_ne_crash { s with score := s.score + 1 } draws hw hh
          generalize addheart { s with score := s.score + 1 } draws = r at this
          rcases r with e | ⟨s1, r1⟩
          · intro h; simp only [Except.error.injEq] at h; exact this (by rw [h])
          · simp
        · simp

theorem reachable_nonempty (s : gameState) (hr : Reachable s) : s.snake ≠ [] := by
  induction hr with
  | init tw th => simp [initState]
  | turn s d _ ih => rw [(changeDirection_frame s d).1]; exact ih
  | tick s s' draws rest _ hu _ =>
    obtain ⟨body, head, -, -, -, -, -, -, -, hc⟩ := updateSnake_shape s s' draws rest hu
    rcases hc with ⟨h, -⟩ | ⟨h, -⟩ <;> rw [h] <;> simp

theorem tick_length (s s' : gameState) (draws rest : List Draw)
    (h : updateSnake s draws = .ok (s', rest)) :
    (s'.snake.length = s.snake.length ∧ s'.score = s.score)
      ∨ (s'.snake.length = s.snake.length + 1 ∧ s'.score = s.score + 1) := by
  obtain ⟨body, head, hs, -, -, -, -, -, -, hc⟩ := updateSnake_shape s s' draws rest h
  rcases hc with ⟨h1, h2⟩ | ⟨h1, h2⟩
  · right; rw [h1]; simp [h2]
  · left; rw [h1, hs]; simp [h2]

theorem tick_nodup (s s' : gameState) (draws rest : List Draw) (hn : s.snake.Nodup)
    (h : updateSnake s draws = .ok (s', rest)) : s'.snake.Nodup := by
  obtain ⟨body, head, hs, -, hm, -, -, -, -, hc⟩ := updateSnake_shape s s' draws rest h
  rcases hc with ⟨h1, -⟩ | ⟨h1, -⟩
  · rw [h1]
    exact List.Nodup.append hn (List.nodup_singleton _) (by simpa using hm)
  · rw [h1]
    have hsub : (s.snake.drop 1).Sublist s.snake := List.drop_sublist 1 s.snake
    refine List.Nodup.append (hn.sublist hsub) (List.nodup_singleton _) ?_
    have : displace (effectiveHeading s) head ∉ s.snake.drop 1 := fun hx => hm (hsub.subset hx)
    simpa using this

theorem tmod_two_eq_zero_iff (a : Int) : a.tmod 2 = 0 ↔ a % 2 = 0 := by
  constructor
  · intro h
    have := Int.dvd_of_tmod_eq_zero h
    omega
  · intro h
    exact Int.tmod_eq_zero_of_dvd (Int.dvd_of_emod_eq_zero h)

theorem generateRandomLocation_even (width height : Int) (d : Draw) (x y : Int)
    (h : generateRandomLocation width height d = .ok (x, y)) : x % 2 = 0 := by
  unfold generateRandomLocation at h
  split at h
  · simp at h
  split at h
  · simp at h
  simp only [Except.ok.injEq, Prod.mk.injEq] at h
  have hx := h.1
  have hiff := tmod_two_eq_zero_iff d.1
  by_cases ht : d.1.tmod 2 = 0
  · have he := hiff.1 ht
    simp only [ht, ne_eq, not_true_eq_false, if_false] at hx
    split_ifs at hx <;> omega
  · have he : ¬ d.1 % 2 = 0 := fun h0 => ht (hiff.2 h0)
    simp only [ne_eq, ht, not_false_eq_true, if_true] at hx
    split_ifs at hx <;> omega

theorem displace_even (d : direction) (c : loc) (h : c.x % 2 = 0) :
    (displace d c).x % 2 = 0 := by
  unfold displace
  split_ifs <;> simp <;> omega

theorem initState_even (tw th : Int) : ∀ c ∈ (initState tw th).snake, c.x % 2 = 0 := by
  intro c hc
  simp only [initState, List.mem_singleton] at hc
  rw [hc]
  simp only
  have := Int.tmod_add_tdiv (tw.tdiv 2) 2
  omega

theorem addheart_first_free (s : gameState) (d : Draw) (rest : List Draw) (f : loc)
    (hd : generateRandomLocation s.width s.height d = .ok (f.x, f.y)) (hf : f ∉ s.snake) :
    ∀ used : List Draw,
      (∀ u ∈ used, ∃ c ∈ s.snake, generateRandomLocation s.width s.height u = .ok (c.x, c.y)) →
      addheart s (used ++ d :: rest) = .ok ({ s with heart := some f }, rest) := by
  intro used
  induction used with
  | nil =>
    intro _
    simp only [List.nil_append]
    unfold addheart
    rw [hd]
    simp only []
    rw [if_neg (fun h => hf ((any_cell_iff_swap s.snake f.x f.y).1 h))]
  | cons u us ih =>
    intro hall
    obtain ⟨c, hc, hg⟩ := hall u (List.mem_cons_self u us)
    simp only [List.cons_append]
    unfold addheart
    rw [hg]
    simp only []
    rw [if_pos ((any_cell_iff_swap s.snake c.x c.y).2 hc)]
    exact ih (fun v hv => hall v (List.mem_cons_of_mem u hv))

theorem addheart_all_rejected (s : gameState) :
    ∀ draws : List Draw,
      (∀ u ∈ draws, ∃ c ∈ s.snake, generateRandomLocation s.width s.height u = .ok (c.x, c.y)) →
      addheart s draws = .error .spin := by
  intro draws
  induction draws with
  | nil => intro _; rfl
  | cons u us ih =>
    intro hall
    obtain ⟨c, hc, hg⟩ := hall u (List.mem_cons_self u us)
    unfold addheart
    rw [hg]
    simp only []
    rw [if_pos ((any_cell_iff_swap s.snake c.x c.y).2 hc)]
    exact ih (fun v hv => hall v (List.mem_cons_of_mem u hv))

theorem changeDirection_run_frame (ds : List direction) :
    ∀ s : gameState,
      (ds.foldl changeDirection s).snake = s.snake
      ∧ (ds.foldl changeDirection s).width = s.width
      ∧ (ds.foldl changeDirection s).height = s.height := by
  induction ds with
  | nil => intro s; exact ⟨rfl, rfl, rfl⟩
  | cons d ds ih =>
    intro s
    obtain ⟨h1, h2, h3⟩ := ih (changeDirection s d)
    obtain ⟨f1, -, -, -, f5, f6⟩ := changeDirection_frame s d
    simp only [List.foldl_cons]
    exact ⟨h1.trans f1, h2.trans f5, h3.trans f6⟩

theorem tinyStart_draw_on_snake (d : Draw)
    (h : 0 ≤ d.1 ∧ d.1 < tinyStart.width ∧ 0 ≤ d.2 ∧ d.2 < tinyStart.height) :
    ∃ c ∈ tinyStart.snake,
      generateRandomLocation tinyStart.width tinyStart.height d = .ok (c.x, c.y) := by
  have hw : tinyStart.width = 2 := rfl
  have hh : tinyStart.height = 1 := rfl
  rw [hw, hh] at h
  obtain ⟨rx, ry⟩ := d
  simp only at h
  have hry : ry = 0 := by omega
  have hrx : rx = 0 ∨ rx = 1 := by omega
  refine ⟨⟨0, 0⟩, by decide, ?_⟩
  rcases hrx with rfl | rfl <;> subst hry <;> rfl

theorem updateSnake_food_elsewhere (s : gameState) (draws : List Draw) (body : List loc)
    (head g : loc) (hs : s.snake = body ++ [head]) (hg : inGrid s head)
    (hm : displace (effectiveHeading s) head ∉ s.snake)
    (hh : s.heart = some g) (hne : g ≠ displace (effectiveHeading s) head) :
    updateSnake s draws =
      .ok ({ s with snake := s.snake.drop 1 ++ [displace (effectiveHeading s) head]
                    lastHeading := effectiveHeading s
                    heading := direction.none }, draws) := by
  rw [updateSnake_eq s draws body head hs, if_neg (not_not.2 hg), if_neg hm, hh]
  simp only []
  rw [if_neg (fun e => hne e.symm)]

theorem updateSnake_food_absent (s : gameState) (body : List loc) (head : loc)
    (hs : s.snake = body ++ [head]) (hg : inGrid s head)
    (hm : displace (effectiveHeading s) head ∉ s.snake) (hh : s.heart = Option.none)
    (used : List Draw) (d : Draw) (rest : List Draw) (f : loc)
    (hall : ∀ u ∈ used, ∃ c ∈ s.snake,
      generateRandomLocation s.width s.height u = .ok (c.x, c.y))
    (hd : generateRandomLocation s.width s.height d = .ok (f.x, f.y)) (hf : f ∉ s.snake) :
    updateSnake s (used ++ d :: rest) =
      .ok ({ s with heart := some f
                    snake := s.snake.drop 1 ++ [displace (effectiveHeading s) head]
                    lastHeading := effectiveHeading s
                    heading := direction.none }, rest) := by
  rw [updateSnake_eq s (used ++ d :: rest) body head hs, if_neg (not_not.2 hg), if_neg hm, hh]
  simp only []
  rw [addheart_first_free s d rest f hd hf used hall]

theorem updateSnake_food_eaten (s : gameState) (body : List loc) (head : loc)
    (hs : s.snake = body ++ [head]) (hg : inGrid s head)
    (hm : displace (effectiveHeading s) head ∉ s.snake)
    (hh : s.heart = some (displace (effectiveHeading s) head))
    (used : List Draw) (d : Draw) (rest : List Draw) (f : loc)
    (hall : ∀ u ∈ used, ∃ c ∈ s.snake,
      generateRandomLocation s.width s.height u = .ok (c.x, c.y))
    (hd : generateRandomLocation s.width s.height d = .ok (f.x, f.y)) (hf : f ∉ s.snake) :
    updateSnake s (used ++ d :: rest) =
      .ok ({ s with heart := some f
                    score := s.score + 1
                    snake := s.snake ++ [displace (effectiveHeading s) head]
                    lastHeading := effectiveHeading s
                    heading := direction.none }, rest) := by
  have hadd := addheart_first_free { s with score := s.score + 1 } d rest f hd hf used hall
  rw [updateSnake_eq s (used ++ d :: rest) body head hs, if_neg (not_not.2 hg), if_neg hm]
  rw [hh] at hadd ⊢
  simp only [] at hadd ⊢
  rw [if_pos trivial, hadd]

theorem updateSnake_food_pending (s : gameState) (body : List loc) (head : loc)
    (hs : s.snake = body ++ [head]) (hg : inGrid s head)
    (hm : displace (effectiveHeading s) head ∉ s.snake)
    (hh : s.heart = Option.none ∨ s.heart = some (displace (effectiveHeading s) head))
    (draws : List Draw)
    (hall : ∀ u ∈ draws, ∃ c ∈ s.snake,
      generateRandomLocation s.width s.height u = .ok (c.x, c.y)) :
    updateSnake s draws = .error .spin := by
  rw [updateSnake_eq s draws body head hs, if_neg (not_not.2 hg), if_neg hm]
  rcases hh with hh | hh
  · rw [hh]
    simp only []
    rw [addheart_all_rejected s draws hall]
  · have hadd := addheart_all_rejected { s with score := s.score + 1 } draws hall
    rw [hh] at hadd ⊢
    simp only [] at hadd ⊢
    rw [if_pos trivial, hadd]

theorem reachable_food (s : gameState) (hr : Reachable s) :
    s.heading = direction.none → ∃ g : loc, s.heart = some g := by
  induction hr with
  | init tw th =>
    intro h
    have h1 : (initState tw th).heading = direction.up := rfl
    rw [h1] at h
    exact absurd h (by decide)
  | turn s d _ ih =>
    intro h
    rw [(changeDirection_frame s d).2.1]
    by_cases h0 : s.heading = direction.none
    · exact ih h0
    · rw [changeDirection_blocked s d h0] at h
      exact absurd h h0
  | tick s s' draws rest _ hu _ =>
    intro _
    obtain ⟨body, head, -, -, -, hcase⟩ := updateSnake_ok s s' draws rest hu
    rcases hcase with ⟨-, f, -, -, rfl⟩ | ⟨-, f, -, -, rfl⟩ | ⟨g, hg, -, -, rfl⟩
    · exact ⟨f, rfl⟩
    · exact ⟨f, rfl⟩
    · exact ⟨g, hg⟩

theorem tinyStart_spins (draws : List Draw)
    (hr : ∀ d ∈ draws, 0 ≤ d.1 ∧ d.1 < tinyStart.width ∧ 0 ≤ d.2 ∧ d.2 < tinyStart.height) :
    updateSnake tinyStart draws = .error .spin :=
  updateSnake_food_pending tinyStart [] ⟨0, 0⟩ rfl (by decide) (by decide) (Or.inl rfl) draws
    (fun u hu => tinyStart_draw_on_snake u (hr u hu))

theorem result_score_and_length (s s' : gameState) (draws rest : List Draw)
    (h : updateSnake s draws = .ok (s', rest)) :
    ∃ head : loc, s.snake.getLast? = some head ∧
      (s.heart = some (displace (effectiveHeading s) head) →
        s'.score = s.score + 1 ∧ s'.snake.length = s.snake.length + 1) ∧
      (s.heart ≠ some (displace (effectiveHeading s) head) →
        s'.score = s.score ∧ s'.snake.length = s.snake.length) := by
  obtain ⟨body, head, hs, -, -, hcase⟩ := updateSnake_ok s s' draws rest h
  refine ⟨head, by simp [hs], ?_, ?_⟩
  · intro hf
    rcases hcase with ⟨hn, -⟩ | ⟨-, f, -, -, rfl⟩ | ⟨g, hg, hne, -, -⟩
    · rw [hn] at hf; simp at hf
    · simp
    · rw [hg] at hf
      simp only [Option.some.injEq] at hf
      exact absurd hf hne
  · intro hf
    rcases hcase with ⟨-, f, -, -, rfl⟩ | ⟨he, -⟩ | ⟨g, -, -, -, rfl⟩
    · simp [hs]
    · exact absurd he hf
    · simp [hs]

theorem result_snake (s s' : gameState) (draws rest : List Draw)
    (h : updateSnake s draws = .ok (s', rest)) :
    ∃ head newHead : loc, s.snake.getLast? = some head ∧
      s'.snake = (if s.heart = some newHead then s.snake else s.snake.drop 1) ++ [newHead] ∧
      ((effectiveHeading s = direction.up ∧ newHead = ⟨head.x, head.y - 1⟩)
        ∨ (effectiveHeading s = direction.right ∧ newHead = ⟨head.x + 2, head.y⟩)
        ∨ (effectiveHeading s = direction.down ∧ newHead = ⟨head.x, head.y + 1⟩)
        ∨ (effectiveHeading s = direction.left ∧ newHead = ⟨head.x - 2, head.y⟩)) := by
  obtain ⟨body, head, hs, -, hm, hcase⟩ := updateSnake_ok s s' draws rest h
  refine ⟨head, displace (effectiveHeading s) head, by simp [hs], ?_, ?_⟩
  · rcases hcase with ⟨hn, f, -, -, rfl⟩ | ⟨he, f, -, -, rfl⟩ | ⟨g, hg, hne, -, rfl⟩
    · simp [hn]
    · simp [he]
    · have : ¬ (s.heart = some (displace (effectiveHeading s) head)) := by
        rw [hg]; intro e; exact hne (Option.some.inj e)
      simp [this]
  · have hmove : isMove (effectiveHeading s) := by
      apply isMove_of_displace_ne _ head
      intro he
      apply hm
      rw [he, hs]
      simp
    rcases hmove with e | e | e | e
    · exact Or.inl ⟨e, by rw [e]; rfl⟩
    · exact Or.inr (Or.inl ⟨e, by rw [e]; rfl⟩)
    · exact Or.inr (Or.inr (Or.inl ⟨e, by rw [e]; rfl⟩))
    · exact Or.inr (Or.inr (Or.inr ⟨e, by rw [e]; rfl⟩))

theorem isMove_of_free (s : gameState) (body : List loc) (head : loc)
    (hs : s.snake = body ++ [head]) (hm : displace (effectiveHeading s) head ∉ s.snake) :
    isMove (effectiveHeading s) := by
  apply isMove_of_displace_ne _ head
  intro he
  apply hm
  rw [he, hs]
  simp

theorem result_heading (s s' : gameState) (draws rest : List Draw)
    (h : updateSnake s draws = .ok (s', rest)) :
    s'.heading = direction.none
    ∧ s'.lastHeading = (if s.heading ≠ direction.none then s.heading else s.lastHeading)
    ∧ ∀ d : direction, d ≠ opposite s'.lastHeading →
        changeDirection s' d = { s' with heading := d } := by
  obtain ⟨body, head, hs, -, hm, -, -, hh, hl, -⟩ := updateSnake_shape s s' draws rest h
  refine ⟨hh, hl, ?_⟩
  intro d hd
  have hmove : isMove (effectiveHeading s) := isMove_of_free s body head hs hm
  exact changeDirection_accept s' d hh (Or.inr ⟨hl ▸ hmove, hd⟩)

theorem tinyStart_not_dead (draws : List Draw) :
    updateSnake tinyStart draws ≠ .error .dead := by
  intro hdead
  rcases (tick_dead_iff tinyStart draws [] ⟨0, 0⟩ rfl).1 hdead with h | h
  · exact h (by decide)
  · exact absurd h (by decide)

/-! ## The claims -/

/-- C1: on a non-empty snake a tick ends the game exactly when the head at the start
of the tick is outside `[0,width) × [0,height)` or the stepped head is a cell of the
snake as it is at the start of the tick; food and random draws play no role. -/
theorem updateSnake_dead_iff (s : gameState) (draws : List Draw) (hne : s.snake ≠ []) :
    (updateSnake s draws = .error .dead ↔
      (¬ inGrid s (s.snake.getLast hne)
        ∨ displace (effectiveHeading s) (s.snake.getLast hne) ∈ s.snake))
    ∧ ∀ (food : Option loc) (draws2 : List Draw),
        (updateSnake { s with heart := food } draws2 = .error .dead
          ↔ updateSnake s draws = .error .dead) := by
  refine ⟨tick_dead_iff s draws _ _ (snake_split s.snake hne), ?_⟩
  intro food draws2
  rw [tick_dead_iff s draws _ _ (snake_split s.snake hne),
    tick_dead_iff { s with heart := food } draws2 _ _ (snake_split s.snake hne)]
  exact Iff.rfl

theorem updateSnake_dead_iff_witness :
    overEdgeState.snake ≠ [] ∧ updateSnake overEdgeState [] = .error .dead :=
  ⟨by decide, (updateSnake_dead_iff overEdgeState [] (by decide)).1.2 (Or.inl (by decide))⟩

/-- C2: a tick that does not end the game (head inside the grid, stepped head on no
snake cell) returns at once when food lies elsewhere, with score and snake length
unchanged; when the stepped head is the food cell it returns with the first draw off
the snake, with score and length both grown by exactly 1; when there is no food it
returns with the first draw off the snake, with score and length unchanged; while
every draw is rejected it is still running.  Every tick that returns has either
raised score and length by exactly 1 (food reached) or left both unchanged. -/
theorem tick_score_and_length (s : gameState) :
    (∀ (draws rest : List Draw) (s' : gameState), updateSnake s draws = .ok (s', rest) →
        ∃ head : loc, s.snake.getLast? = some head ∧
          (s.heart = some (displace (effectiveHeading s) head) →
            s'.score = s.score + 1 ∧ s'.snake.length = s.snake.length + 1) ∧
          (s.heart ≠ some (displace (effectiveHeading s) head) →
            s'.score = s.score ∧ s'.snake.length = s.snake.length))
    ∧ ∀ (body : List loc) (head : loc), s.snake = body ++ [head] → inGrid s head →
        displace (effectiveHeading s) head ∉ s.snake →
        (∀ draws : List Draw, updateSnake s draws ≠ .error .dead
            ∧ updateSnake s draws ≠ .error .crash)
        ∧ (∀ (g : loc) (draws : List Draw), s.heart = some g →
            g ≠ displace (effectiveHeading s) head →
            ∃ s' : gameState, updateSnake s draws = .ok (s', draws)
              ∧ s'.score = s.score ∧ s'.snake.length = s.snake.length)
        ∧ (∀ (used : List Draw) (d : Draw) (rest : List Draw) (f : loc),
            s.heart = some (displace (effectiveHeading s) head) →
            (∀ u ∈ used, ∃ c ∈ s.snake,
              generateRandomLocation s.width s.height u = .ok (c.x, c.y)) →
            generateRandomLocation s.width s.height d = .ok (f.x, f.y) → f ∉ s.snake →
            ∃ s' : gameState, updateSnake s (used ++ d :: rest) = .ok (s', rest)
              ∧ s'.score = s.score + 1 ∧ s'.snake.length = s.snake.length + 1)
        ∧ (∀ (used : List Draw) (d : Draw) (rest : List Draw) (f : loc),
            s.heart = Option.none →
            (∀ u ∈ used, ∃ c ∈ s.snake,
              generateRandomLocation s.width s.height u = .ok (c.x, c.y)) →
            generateRandomLocation s.width s.height d = .ok (f.x, f.y) → f ∉ s.snake →
            ∃ s' : gameState, updateSnake s (used ++ d :: rest) = .ok (s', rest)
              ∧ s'.score = s.score ∧ s'.snake.length = s.snake.length)
        ∧ (∀ draws : List Draw,
            (s.heart = Option.none ∨ s.heart = some (displace (effectiveHeading s) head)) →
            (∀ u ∈ draws, ∃ c ∈ s.snake,
              generateRandomLocation s.width s.height u = .ok (c.x, c.y)) →
            updateSnake s draws = .error .spin) := by
  refine ⟨fun draws rest s' h => result_score_and_length s s' draws rest h, ?_⟩
  intro body head hs hg hm
  have hne : s.snake ≠ [] := by rw [hs]; simp
  refine ⟨?_, ?_, ?_, ?_, ?_⟩
  · intro draws
    refine ⟨?_, updateSnake_ne_crash s draws hne⟩
    intro hdead
    rcases (tick_dead_iff s draws body head hs).1 hdead with h | h
    · exact h hg
    · exact hm h
  · intro g draws hh hgne
    refine ⟨_, updateSnake_food_elsewhere s draws body head g hs hg hm hh hgne, rfl, ?_⟩
    simp [hs]
  · intro used d rest f hh hall hd hf
    refine ⟨_, updateSnake_food_eaten s body head hs hg hm hh used d rest f hall hd hf, rfl, ?_⟩
    simp
  · intro used d rest f hh hall hd hf
    refine ⟨_, updateSnake_food_absent s body head hs hg hm hh used d rest f hall hd hf, rfl, ?_⟩
    simp [hs]
  · intro draws hh hall
    exact updateSnake_food_pending s body head hs hg hm hh draws hall

theorem tick_score_and_length_witness :
    feedState.snake = [] ++ [⟨4, 9⟩] ∧ inGrid feedState ⟨4, 9⟩
      ∧ displace (effectiveHeading feedState) ⟨4, 9⟩ ∉ feedState.snake
      ∧ feedState.heart = some (displace (effectiveHeading feedState) ⟨4, 9⟩)
      ∧ updateSnake feedState ([(4, 9)] ++ (0, 0) :: []) = .ok (fedState, [])
      ∧ (∃ s' : gameState, updateSnake feedState ([(4, 9)] ++ (0, 0) :: []) = .ok (s', [])
          ∧ s'.score = feedState.score + 1
          ∧ s'.snake.length = feedState.snake.length + 1)
      ∧ ∃ s' : gameState, updateSnake edgeState [] = .ok (s', [])
          ∧ s'.score = edgeState.score ∧ s'.snake.length = edgeState.snake.length :=
  ⟨rfl, by decide, by decide, rfl, rfl,
    ((tick_score_and_length feedState).2 [] ⟨4, 9⟩ rfl (by decide) (by decide)).2.2.1
      [(4, 9)] (0, 0) [] ⟨0, 0⟩ rfl
      (by
        intro u hu
        rw [List.mem_singleton.1 hu]
        exact ⟨⟨4, 9⟩, by decide, rfl⟩)
      rfl (by decide),
    ((tick_score_and_length edgeState).2 [] ⟨8, 9⟩ rfl (by decide) (by decide)).2.1
      ⟨0, 0⟩ [] rfl (by decide)⟩

/-- C3: with `heading = none`, `changeDirection d` stores `d` exactly when the snake
has length 1 or `lastHeading` is one of the four directions and `d` is not its
opposite; otherwise the state is unchanged (for a non-empty snake whose `lastHeading`
is a direction, that is the reversal on a snake longer than 1).  Snake, food, score,
`lastHeading`, width and height never change. -/
theorem changeDirection_spec (s : gameState) (d : direction) (h : s.heading = direction.none) :
    ((s.snake.length = 1 ∨ (isMove s.lastHeading ∧ d ≠ opposite s.lastHeading)) →
        changeDirection s d = { s with heading := d })
    ∧ (¬ (s.snake.length = 1 ∨ (isMove s.lastHeading ∧ d ≠ opposite s.lastHeading)) →
        changeDirection s d = s)
    ∧ (isMove s.lastHeading → s.snake ≠ [] →
        (¬ (s.snake.length = 1 ∨ (isMove s.lastHeading ∧ d ≠ opposite s.lastHeading))
          ↔ (1 < s.snake.length ∧ d = opposite s.lastHeading)))
    ∧ (changeDirection s d).snake = s.snake
    ∧ (changeDirection s d).heart = s.heart
    ∧ (changeDirection s d).score = s.score
    ∧ (changeDirection s d).lastHeading = s.lastHeading
    ∧ (changeDirection s d).width = s.width
    ∧ (changeDirection s d).height = s.height := by
  have hcond : (s.snake.length = 1
        ∨ (s.lastHeading = direction.up ∧ d ≠ direction.down)
        ∨ (s.lastHeading = direction.left ∧ d ≠ direction.right)
        ∨ (s.lastHeading = direction.right ∧ d ≠ direction.left)
        ∨ (s.lastHeading = direction.down ∧ d ≠ direction.up))
      ↔ (s.snake.length = 1 ∨ (isMove s.lastHeading ∧ d ≠ opposite s.lastHeading)) := by
    unfold isMove opposite direction.up direction.down direction.left direction.right
    constructor
    · rintro (h1 | ⟨h1, h2⟩ | ⟨h1, h2⟩ | ⟨h1, h2⟩ | ⟨h1, h2⟩)
      · exact Or.inl h1
      all_goals (right; rw [h1]; simp; exact h2)
    · rintro (h1 | ⟨h1 | h1 | h1 | h1, h2⟩)
      · exact Or.inl h1
      all_goals (rw [h1] at h2 ⊢; simp at h2; simp [h2])
  refine ⟨?_, ?_, ?_, ?_⟩
  · intro hc
    unfold changeDirection
    rw [if_pos h, if_pos (hcond.2 hc)]
  · intro hc
    unfold changeDirection
    rw [if_pos h, if_neg (fun hx => hc (hcond.1 hx))]
  · intro hm hne
    have hlen : s.snake.length ≠ 0 := fun h0 => hne (List.length_eq_zero.1 h0)
    constructor
    · intro hc
      refine ⟨?_, ?_⟩
      · have : s.snake.length ≠ 1 := fun h1 => hc (Or.inl h1)
        omega
      · by_contra hd
        exact hc (Or.inr ⟨hm, hd⟩)
    · rintro ⟨h1, h2⟩ (h3 | ⟨-, h3⟩)
      · omega
      · exact h3 h2
  · unfold changeDirection
    rw [if_pos h]
    split <;> simp

theorem changeDirection_spec_witness :
    edgeState.heading = direction.none
      ∧ changeDirection edgeState direction.left = { edgeState with heading := direction.left } :=
  ⟨rfl, (changeDirection_spec edgeState direction.left rfl).1 (Or.inl rfl)⟩

/-- C4: `changeDirection` leaves the whole state unchanged when `heading` is not
`none`, and in any finite run of `changeDirection` calls with no tick in between,
from any state, at most one call changes the state. -/
theorem changeDirection_once :
    (∀ (s : gameState) (d : direction), s.heading ≠ direction.none → changeDirection s d = s)
    ∧ ∀ (s : gameState) (ds : List direction), changesApplied s ds ≤ 1 := by
  refine ⟨changeDirection_blocked, ?_⟩
  intro s ds
  induction ds generalizing s with
  | nil => simp [changesApplied]
  | cons d ds ih =>
    unfold changesApplied
    by_cases hc : changeDirection s d = s
    · rw [hc]
      simp only [ne_eq, not_true_eq_false, if_false, Nat.zero_add]
      exact ih s
    · have hh : (changeDirection s d).heading ≠ direction.none := by
        intro h0
        apply hc
        unfold changeDirection at h0 ⊢
        split
        · rename_i hn
          split
          · rename_i hcnd
            rw [if_pos hn, if_pos hcnd] at h0
            simp only at h0
            cases s
            simp only [gameState.mk.injEq, true_and, and_true] at hn ⊢
            rw [h0, hn]
          · rfl
        · rfl
      rw [changesApplied_blocked ds _ hh]
      simp [hc]

theorem changeDirection_once_witness :
    startState.heading ≠ direction.none
      ∧ changeDirection startState direction.left = startState
      ∧ changesApplied edgeState [direction.left, direction.up, direction.down] ≤ 1 :=
  ⟨by decide, changeDirection_once.1 startState direction.left (by decide),
    changeDirection_once.2 edgeState [direction.left, direction.up, direction.down]⟩

/-- C5: in every state reachable from the initial state, when the snake has length
greater than 1 the head computed by the next tick is not the second-from-head cell:
`lastHeading` is the move that carried the previous head to the current head, and
the effective heading is never its opposite. -/
theorem no_reversal_into_neck (s : gameState) (hr : Reachable s)
    (body : List loc) (prev head : loc) (hs : s.snake = body ++ [prev, head]) :
    displace (effectiveHeading s) head ≠ prev
      ∧ isMove s.lastHeading
      ∧ head = displace s.lastHeading prev
      ∧ effectiveHeading s ≠ opposite s.lastHeading := by
  obtain ⟨h1, h2, h3⟩ := reachable_neck s hr body prev head hs
  have he : effectiveHeading s ≠ opposite s.lastHeading := by
    unfold effectiveHeading
    split
    · exact h3
    · exact opposite_ne_self _ h1
  refine ⟨?_, h1, h2, he⟩
  rw [h2]
  exact displace_back _ _ _ h1 he

theorem no_reversal_into_neck_witness :
    Reachable grownState
      ∧ grownState.snake = [] ++ [⟨10, 8⟩, ⟨10, 7⟩]
      ∧ displace (effectiveHeading grownState) ⟨10, 7⟩ ≠ ⟨10, 8⟩
      ∧ isMove grownState.lastHeading
      ∧ (⟨10, 7⟩ : loc) = displace grownState.lastHeading ⟨10, 8⟩
      ∧ effectiveHeading grownState ≠ opposite grownState.lastHeading :=
  have hr : Reachable grownState :=
    Reachable.tick secondState grownState [(0, 0)] []
      (Reachable.tick (initState 20 11) secondState [(10, 7)] [] (Reachable.init 20 11) rfl) rfl
  ⟨hr, rfl, no_reversal_into_neck grownState hr [] ⟨10, 8⟩ ⟨10, 7⟩ rfl⟩

/-- C6 as stated fails: on a terminal of 2 columns and 2 rows the first tick does not
end the game, yet for every run of draws in range it is still in the loop of
`addheart`: no resulting snake exists, the snake stays `[(0,0)]` and no head is
appended. -/
theorem first_tick_leaves_no_snake :
    tinyStart.snake = [⟨0, 0⟩]
      ∧ (∀ draws : List Draw, updateSnake tinyStart draws ≠ .error .dead)
      ∧ updateSnake tinyStart [(0, 0), (1, 0)] = .error .spin
      ∧ ∀ draws : List Draw,
          (∀ d ∈ draws, 0 ≤ d.1 ∧ d.1 < tinyStart.width ∧ 0 ≤ d.2 ∧ d.2 < tinyStart.height) →
          ∀ (s' : gameState) (rest : List Draw), updateSnake tinyStart draws ≠ .ok (s', rest) := by
  refine ⟨rfl, tinyStart_not_dead, rfl, ?_⟩
  intro draws hr s' rest h
  rw [tinyStart_spins draws hr] at h
  exact absurd h (by simp)

/-- C6, amended: a tick that does not end the game returns at once when food lies
elsewhere, and otherwise with the first draw that is off the snake.  When it returns,
the snake is the old snake, without its first cell unless food was eaten, followed by
the new head; the new head is the old head moved by (0,-1), (+2,0), (0,+1) or (-2,0)
for up, right, down, left, the direction being `heading` if it is not `none` and
`lastHeading` otherwise. -/
theorem tick_snake (s : gameState) :
    (∀ (draws rest : List Draw) (s' : gameState), updateSnake s draws = .ok (s', rest) →
        ∃ head newHead : loc, s.snake.getLast? = some head ∧
          s'.snake
            = (if s.heart = some newHead then s.snake else s.snake.drop 1) ++ [newHead] ∧
          ((effectiveHeading s = direction.up ∧ newHead = ⟨head.x, head.y - 1⟩)
            ∨ (effectiveHeading s = direction.right ∧ newHead = ⟨head.x + 2, head.y⟩)
            ∨ (effectiveHeading s = direction.down ∧ newHead = ⟨head.x, head.y + 1⟩)
            ∨ (effectiveHeading s = direction.left ∧ newHead = ⟨head.x - 2, head.y⟩)))
    ∧ ∀ (body : List loc) (head : loc), s.snake = body ++ [head] → inGrid s head →
        displace (effectiveHeading s) head ∉ s.snake →
        (∀ (g : loc) (draws : List Draw), s.heart = some g →
            g ≠ displace (effectiveHeading s) head →
            ∃ s' : gameState, updateSnake s draws = .ok (s', draws)
              ∧ s'.snake = s.snake.drop 1 ++ [displace (effectiveHeading s) head])
        ∧ (∀ (used : List Draw) (d : Draw) (rest : List Draw) (f : loc),
            s.heart = some (displace (effectiveHeading s) head) →
            (∀ u ∈ used, ∃ c ∈ s.snake,
              generateRandomLocation s.width s.height u = .ok (c.x, c.y)) →
            generateRandomLocation s.width s.height d = .ok (f.x, f.y) → f ∉ s.snake →
            ∃ s' : gameState, updateSnake s (used ++ d :: rest) = .ok (s', rest)
              ∧ s'.snake = s.snake ++ [displace (effectiveHeading s) head])
        ∧ (∀ (used : List Draw) (d : Draw) (rest : List Draw) (f : loc),
            s.heart = Option.none →
            (∀ u ∈ used, ∃ c ∈ s.snake,
              generateRandomLocation s.width s.height u = .ok (c.x, c.y)) →
            generateRandomLocation s.width s.height d = .ok (f.x, f.y) → f ∉ s.snake →
            ∃ s' : gameState, updateSnake s (used ++ d :: rest) = .ok (s', rest)
              ∧ s'.snake = s.snake.drop 1 ++ [displace (effectiveHeading s) head])
        ∧ (∀ draws : List Draw,
            (s.heart = Option.none ∨ s.heart = some (displace (effectiveHeading s) head)) →
            (∀ u ∈ draws, ∃ c ∈ s.snake,
              generateRandomLocation s.width s.height u = .ok (c.x, c.y)) →
            updateSnake s draws = .error .spin) := by
  refine ⟨fun draws rest s' h => result_snake s s' draws rest h, ?_⟩
  intro body head hs hg hm
  refine ⟨?_, ?_, ?_, ?_⟩
  · intro g draws hh hgne
    exact ⟨_, updateSnake_food_elsewhere s draws body head g hs hg hm hh hgne, rfl⟩
  · intro used d rest f hh hall hd hf
    exact ⟨_, updateSnake_food_eaten s body head hs hg hm hh used d rest f hall hd hf, rfl⟩
  · intro used d rest f hh hall hd hf
    exact ⟨_, updateSnake_food_absent s body head hs hg hm hh used d rest f hall hd hf, rfl⟩
  · intro draws hh hall
    exact updateSnake_food_pending s body head hs hg hm hh draws hall

theorem tick_snake_witness :
    secondState.snake = [] ++ [⟨10, 8⟩] ∧ inGrid secondState ⟨10, 8⟩
      ∧ displace (effectiveHeading secondState) ⟨10, 8⟩ ∉ secondState.snake
      ∧ secondState.heart = some (displace (effectiveHeading secondState) ⟨10, 8⟩)
      ∧ updateSnake secondState ([(10, 8)] ++ (0, 0) :: []) = .ok (grownState, [])
      ∧ (∃ s' : gameState, updateSnake secondState ([(10, 8)] ++ (0, 0) :: []) = .ok (s', [])
          ∧ s'.snake = secondState.snake ++ [displace (effectiveHeading secondState) ⟨10, 8⟩])
      ∧ ∃ s' : gameState, updateSnake edgeState [] = .ok (s', [])
          ∧ s'.snake = edgeState.snake.drop 1 ++ [displace (effectiveHeading edgeState) ⟨8, 9⟩] :=
  ⟨rfl, by decide, by decide, rfl, rfl,
    ((tick_snake secondState).2 [] ⟨10, 8⟩ rfl (by decide) (by decide)).2.1
      [(10, 8)] (0, 0) [] ⟨0, 0⟩ rfl
      (by
        intro u hu
        rw [List.mem_singleton.1 hu]
        exact ⟨⟨10, 8⟩, by decide, rfl⟩)
      rfl (by decide),
    ((tick_snake edgeState).2 [] ⟨8, 9⟩ rfl (by decide) (by decide)).1
      ⟨0, 0⟩ [] rfl (by decide)⟩

/-- C7: whenever `addheart` returns, the food cell it has set is not a cell of the
snake as it is at the time of the call, and no other field has changed. -/
theorem addheart_off_snake (s s' : gameState) (draws rest : List Draw)
    (h : addheart s draws = .ok (s', rest)) :
    ∃ f : loc, s'.heart = some f ∧ f ∉ s.snake ∧ s' = { s with heart := some f } := by
  obtain ⟨-, -, f, -, -, h3, -, h5⟩ := addheart_ok s draws rest s' h
  exact ⟨f, by rw [h5], h3, h5⟩

theorem addheart_off_snake_witness :
    addheart startState [(4, 9), (3, 3)] = .ok ({ startState with heart := some ⟨4, 3⟩ }, [])
      ∧ ∃ f : loc, (some (⟨4, 3⟩ : loc)) = some f ∧ f ∉ startState.snake
          ∧ ({ startState with heart := some ⟨4, 3⟩ } : gameState)
              = { startState with heart := some f } :=
  ⟨rfl, addheart_off_snake startState { startState with heart := some ⟨4, 3⟩ }
    [(4, 9), (3, 3)] [] rfl⟩

/-- C8: the food spawned by a tick can be the cell of the new head.  On the first tick
of a game on a terminal of 10 columns and 11 rows, with the draw `(4, 8)`, and on a
tick that eats the food at `(4, 8)` with the same draw, the tick returns with the
food on the head of the snake. -/
theorem food_spawned_on_new_head :
    (startState.heart = Option.none
      ∧ updateSnake startState [(4, 8)]
          = .ok ({ snake := [⟨4, 8⟩], heart := some ⟨4, 8⟩, score := 0,
                   heading := direction.none, lastHeading := direction.up,
                   width := 10, height := 10 }, []))
    ∧ (feedState.heart = some ⟨4, 8⟩
      ∧ updateSnake feedState [(4, 8)]
          = .ok ({ snake := [⟨4, 9⟩, ⟨4, 8⟩], heart := some ⟨4, 8⟩, score := 1,
                   heading := direction.none, lastHeading := direction.up,
                   width := 10, height := 10 }, [])) :=
  ⟨⟨rfl, rfl⟩, rfl, rfl⟩

/-- C9: for `width ≥ 2`, `height ≥ 1` and raw draws `0 ≤ rx < width`, `0 ≤ ry < height`,
`generateRandomLocation` returns `(x, y)` with `y = ry`, `x` even, `0 ≤ x` and
`x + 1 ≤ width - 1`, so the two columns of the glyph and its row are inside the grid. -/
theorem generateRandomLocation_fits (width height rx ry : Int)
    (hw : 2 ≤ width) (hh : 1 ≤ height)
    (hx0 : 0 ≤ rx) (hx1 : rx < width) (hy0 : 0 ≤ ry) (hy1 : ry < height) :
    ∃ x y : Int, generateRandomLocation width height (rx, ry) = .ok (x, y)
      ∧ y = ry ∧ x % 2 = 0 ∧ 0 ≤ x ∧ x + 1 ≤ width - 1 ∧ 0 ≤ y ∧ y < height := by
  have ht : rx.tmod 2 = rx % 2 := Int.tmod_eq_emod hx0 (by decide)
  unfold generateRandomLocation
  rw [if_neg (by omega), if_neg (by omega)]
  simp only [ht]
  refine ⟨_, _, rfl, rfl, ?_, ?_, ?_, hy0, hy1⟩
  all_goals (split_ifs <;> omega)

theorem generateRandomLocation_fits_witness :
    ∃ x y : Int, generateRandomLocation 10 10 (9, 3) = .ok (x, y)
      ∧ y = 3 ∧ x % 2 = 0 ∧ 0 ≤ x ∧ x + 1 ≤ 10 - 1 ∧ 0 ≤ y ∧ y < 10 :=
  generateRandomLocation_fits 10 10 9 3 (by decide) (by decide) (by decide) (by decide)
    (by decide) (by decide)

/-- C10 as stated fails: on a 10 by 10 grid, with the head at `(8,9)` and effective
heading right, the tick returns with the head at `(10,9)`; it does not end the game. -/
theorem boundary_tick_survives :
    edgeState.width = 10 ∧ edgeState.height = 10
      ∧ edgeState.snake.getLast? = some ⟨8, 9⟩
      ∧ effectiveHeading edgeState = direction.right
      ∧ updateSnake edgeState [] = .ok (overEdgeState, [])
      ∧ updateSnake edgeState [] ≠ .error .dead :=
  ⟨rfl, rfl, rfl, rfl, rfl, by rw [show updateSnake edgeState [] = .ok (overEdgeState, []) from rfl]; simp⟩

/-- C10, amended: on a 10 by 10 grid a tick with the head at `(8,9)` and effective
heading right ends the game only if `(10,9)` is already a cell of the snake; when the
tick returns, the head is at `(10,9)`, outside `[0,10)`, and the following tick ends
the game, also after a `changeDirection` call in between. -/
theorem boundary_tick_late (s : gameState) (body : List loc) (draws : List Draw)
    (hw : s.width = 10) (hh : s.height = 10) (hs : s.snake = body ++ [⟨8, 9⟩])
    (he : effectiveHeading s = direction.right) :
    (updateSnake s draws = .error .dead ↔ (⟨10, 9⟩ : loc) ∈ body)
    ∧ ∀ (s' : gameState) (rest : List Draw), updateSnake s draws = .ok (s', rest) →
        s'.snake.getLast? = some ⟨10, 9⟩
        ∧ ∀ (d : direction) (draws2 : List Draw),
            updateSnake s' draws2 = .error .dead
            ∧ updateSnake (changeDirection s' d) draws2 = .error .dead := by
  have hnh : displace (effectiveHeading s) ⟨8, 9⟩ = ⟨10, 9⟩ := by rw [he]; rfl
  constructor
  · rw [tick_dead_iff s draws body ⟨8, 9⟩ hs, hnh, hs]
    have hg : inGrid s ⟨8, 9⟩ := by
      unfold inGrid; rw [hw, hh]; decide
    constructor
    · rintro (h | h)
      · exact absurd hg h
      · rcases List.mem_append.1 h with h | h
        · exact h
        · simp at h
    · intro h
      exact Or.inr (List.mem_append.2 (Or.inl h))
  · intro s' rest hu
    obtain ⟨body1, head, hs1, -, -, hcase⟩ := updateSnake_ok s s' draws rest hu
    have hhead : head = ⟨8, 9⟩ := by
      rw [hs] at hs1
      have := List.append_inj' hs1 rfl
      simpa using this.2.symm
    rw [hhead, hnh] at hcase
    have hfields : s'.width = 10 ∧ s'.height = 10
        ∧ ∃ r : List loc, s'.snake = r ++ [⟨10, 9⟩] := by
      rcases hcase with ⟨-, f, -, -, rfl⟩ | ⟨-, f, -, -, rfl⟩ | ⟨g, -, -, -, rfl⟩
      · exact ⟨hw, hh, _, rfl⟩
      · exact ⟨hw, hh, _, rfl⟩
      · exact ⟨hw, hh, _, rfl⟩
    obtain ⟨hw1, hh1, r, hr⟩ := hfields
    refine ⟨by simp [hr], ?_⟩
    intro d draws2
    obtain ⟨f1, -, -, -, f5, f6⟩ := changeDirection_frame s' d
    constructor
    · apply updateSnake_outside s' draws2 r ⟨10, 9⟩ hr
      unfold inGrid; rw [hw1, hh1]; decide
    · apply updateSnake_outside (changeDirection s' d) draws2 r ⟨10, 9⟩ (by rw [f1, hr])
      unfold inGrid; rw [f5, f6, hw1, hh1]; decide

theorem boundary_tick_late_witness :
    edgeState.width = 10 ∧ edgeState.height = 10 ∧ edgeState.snake = [] ++ [⟨8, 9⟩]
      ∧ effectiveHeading edgeState = direction.right
      ∧ updateSnake edgeState [] = .ok (overEdgeState, [])
      ∧ overEdgeState.snake.getLast? = some ⟨10, 9⟩
      ∧ updateSnake overEdgeState [] = .error .dead :=
  have h := (boundary_tick_late edgeState [] [] rfl rfl rfl rfl).2 overEdgeState [] rfl
  ⟨rfl, rfl, rfl, rfl, rfl, h.1, (h.2 direction.up []).1⟩

/-- C11 as stated fails: on a snake of length 2 that last moved up, the reversal
`down` is rejected and leaves the slot free, so a following `left` is stored. -/
theorem second_request_after_rejected :
    grownState.heading = direction.none
      ∧ changeDirection grownState direction.down = grownState
      ∧ changeDirection (changeDirection grownState direction.down) direction.left
          = { grownState with heading := direction.left }
      ∧ changeDirection (changeDirection grownState direction.down) direction.left
          ≠ changeDirection grownState direction.down := by
  decide

/-- C11, amended: with `heading = none`, a first request `d1` (not `none`) that is
accepted makes every second request without effect: the two calls give the state of
the first call alone, with `heading = d1`.  A first request that is rejected leaves
the state unchanged, and the second request is then handled as a first one. -/
theorem first_accepted_request_wins (s : gameState) (d1 d2 : direction)
    (h : s.heading = direction.none) :
    ((s.snake.length = 1 ∨ (isMove s.lastHeading ∧ d1 ≠ opposite s.lastHeading)) →
        d1 ≠ direction.none →
        changeDirection (changeDirection s d1) d2 = changeDirection s d1
          ∧ changeDirection s d1 = { s with heading := d1 })
    ∧ (¬ (s.snake.length = 1 ∨ (isMove s.lastHeading ∧ d1 ≠ opposite s.lastHeading)) →
        changeDirection s d1 = s
          ∧ changeDirection (changeDirection s d1) d2 = changeDirection s d2) := by
  have hcond : (s.snake.length = 1
        ∨ (s.lastHeading = direction.up ∧ d1 ≠ direction.down)
        ∨ (s.lastHeading = direction.left ∧ d1 ≠ direction.right)
        ∨ (s.lastHeading = direction.right ∧ d1 ≠ direction.left)
        ∨ (s.lastHeading = direction.down ∧ d1 ≠ direction.up))
      ↔ (s.snake.length = 1 ∨ (isMove s.lastHeading ∧ d1 ≠ opposite s.lastHeading)) :=
    changeDirection_cond s d1
  constructor
  · intro hc hd
    have h1 : changeDirection s d1 = { s with heading := d1 } := by
      unfold changeDirection
      rw [if_pos h, if_pos (hcond.2 hc)]
    refine ⟨?_, h1⟩
    apply changeDirection_blocked
    rw [h1]
    exact hd
  · intro hc
    have h1 : changeDirection s d1 = s := by
      unfold changeDirection
      rw [if_pos h, if_neg (fun hx => hc (hcond.1 hx))]
    exact ⟨h1, by rw [h1]⟩

theorem first_accepted_request_wins_witness :
    edgeState.heading = direction.none
      ∧ changeDirection (changeDirection edgeState direction.up) direction.down
          = changeDirection edgeState direction.up
      ∧ changeDirection edgeState direction.up = { edgeState with heading := direction.up } :=
  ⟨rfl, (first_accepted_request_wins edgeState direction.up direction.down rfl).1
    (Or.inl rfl) (by decide)⟩

/-- C12: with `heading = none` and `lastHeading = d` one of the four directions,
`changeDirection d` followed by a tick gives, for the same draws, exactly the result
of the tick alone.  When that tick neither eats nor ends the game and food is present
(as it is in every reachable state with `heading = none`), both runs return at once
with the snake at its old length and its head advanced one step in `d`; with no food
they return so with the first draw off the snake.  Every tick that returns without
eating has kept the length and advanced the head one step in `d`. -/
theorem same_direction_idempotent (s : gameState) (d : direction) (draws : List Draw)
    (h : s.heading = direction.none) (hd : s.lastHeading = d) (hm : isMove d) :
    updateSnake (changeDirection s d) draws = updateSnake s draws
    ∧ (∀ (s' : gameState) (rest : List Draw) (head : loc),
        updateSnake s draws = .ok (s', rest) → s.snake.getLast? = some head →
        s.heart ≠ some (displace d head) →
        s'.snake = s.snake.drop 1 ++ [displace d head]
          ∧ s'.snake.length = s.snake.length
          ∧ s'.snake.getLast? = some (displace d head))
    ∧ (∀ (body : List loc) (head g : loc), s.snake = body ++ [head] → inGrid s head →
        displace d head ∉ s.snake → s.heart = some g → g ≠ displace d head →
        ∃ s' : gameState, updateSnake (changeDirection s d) draws = .ok (s', draws)
          ∧ updateSnake s draws = .ok (s', draws)
          ∧ s'.snake = s.snake.drop 1 ++ [displace d head]
          ∧ s'.snake.length = s.snake.length
          ∧ s'.snake.getLast? = some (displace d head))
    ∧ (∀ (body : List loc) (head : loc) (used : List Draw) (dr : Draw) (rest : List Draw)
        (f : loc), s.snake = body ++ [head] → inGrid s head →
        displace d head ∉ s.snake → s.heart = Option.none → draws = used ++ dr :: rest →
        (∀ u ∈ used, ∃ c ∈ s.snake,
          generateRandomLocation s.width s.height u = .ok (c.x, c.y)) →
        generateRandomLocation s.width s.height dr = .ok (f.x, f.y) → f ∉ s.snake →
        ∃ s' : gameState, updateSnake (changeDirection s d) draws = .ok (s', rest)
          ∧ updateSnake s draws = .ok (s', rest)
          ∧ s'.snake = s.snake.drop 1 ++ [displace d head]
          ∧ s'.snake.length = s.snake.length
          ∧ s'.snake.getLast? = some (displace d head))
    ∧ (Reachable s → ∃ g : loc, s.heart = some g) := by
  have hacc : changeDirection s d = { s with heading := d } :=
    changeDirection_accept s d h (Or.inr ⟨hd ▸ hm, by rw [hd]; exact opposite_ne_self d hm⟩)
  have hsame : updateSnake (changeDirection s d) draws = updateSnake s draws := by
    rw [hacc]; exact updateSnake_heading s d draws h hd hm
  have he2 : effectiveHeading s = d := by
    unfold effectiveHeading
    simp [h, hd]
  refine ⟨hsame, ?_, ?_, ?_, fun hr => reachable_food s hr h⟩
  · intro s' rest head hu hl hf
    obtain ⟨body, head1, hs, -, -, hcase⟩ := updateSnake_ok s s' draws rest hu
    have hh : head1 = head := by
      rw [hs] at hl
      simpa using hl
    rw [hh, he2] at hcase
    have hsn : s'.snake = s.snake.drop 1 ++ [displace d head] := by
      rcases hcase with ⟨-, f, -, -, rfl⟩ | ⟨he, -⟩ | ⟨g, -, -, -, rfl⟩
      · rfl
      · exact absurd he hf
      · rfl
    refine ⟨hsn, ?_, ?_⟩
    · rw [hsn, hs]; simp
    · rw [hsn]; simp
  · intro body head g hs hg hfree hh hgne
    rw [← he2] at hfree hgne
    have hres := updateSnake_food_elsewhere s draws body head g hs hg hfree hh hgne
    rw [he2] at hres
    refine ⟨_, hsame.trans hres, hres, rfl, ?_, ?_⟩
    · simp [hs]
    · simp
  · intro body head used dr rest f hs hg hfree hh hdraws hall hgen hf
    rw [← he2] at hfree
    have hres := updateSnake_food_absent s body head hs hg hfree hh used dr rest f hall hgen hf
    rw [he2, ← hdraws] at hres
    refine ⟨_, hsame.trans hres, hres, rfl, ?_, ?_⟩
    · simp [hs]
    · simp

theorem same_direction_idempotent_witness :
    edgeState.heading = direction.none ∧ edgeState.lastHeading = direction.right
      ∧ isMove direction.right
      ∧ updateSnake (changeDirection edgeState direction.right) [] = .ok (overEdgeState, [])
      ∧ updateSnake (changeDirection edgeState direction.right) []
          = updateSnake edgeState []
      ∧ ∃ s' : gameState,
          updateSnake (changeDirection edgeState direction.right) [] = .ok (s', [])
          ∧ updateSnake edgeState [] = .ok (s', [])
          ∧ s'.snake = edgeState.snake.drop 1 ++ [displace direction.right ⟨8, 9⟩]
          ∧ s'.snake.length = edgeState.snake.length
          ∧ s'.snake.getLast? = some (displace direction.right ⟨8, 9⟩) :=
  have h := same_direction_idempotent edgeState direction.right [] rfl rfl (by decide)
  ⟨rfl, rfl, by decide, rfl, h.1,
    h.2.2.1 [] ⟨8, 9⟩ ⟨0, 0⟩ rfl (by decide) (by decide) rfl (by decide)⟩

/-- C13: in every reachable state the snake has length at least 1, so the tick never
fails on the accesses `snake[0]` and `snake[len-1]`; every tick that returns on a
snake of length `n ≥ 1` yields a snake of length `n` or `n + 1`. -/
theorem snake_never_empty :
    (∀ s : gameState, Reachable s →
        1 ≤ s.snake.length ∧ ∀ draws : List Draw, updateSnake s draws ≠ .error .crash)
    ∧ ∀ (s s' : gameState) (draws rest : List Draw), 1 ≤ s.snake.length →
        updateSnake s draws = .ok (s', rest) →
        s'.snake.length = s.snake.length ∨ s'.snake.length = s.snake.length + 1 := by
  constructor
  · intro s hr
    have hne := reachable_nonempty s hr
    refine ⟨?_, fun draws => updateSnake_ne_crash s draws hne⟩
    cases hsn : s.snake with
    | nil => exact absurd hsn hne
    | cons a b => simp
  · intro s s' draws rest _ h
    rcases tick_length s s' draws rest h with ⟨h1, -⟩ | ⟨h1, -⟩
    · exact Or.inl h1
    · exact Or.inr h1

theorem snake_never_empty_witness :
    Reachable secondState ∧ 1 ≤ secondState.snake.length
      ∧ updateSnake secondState [(0, 0)] = .ok (grownState, [])
      ∧ (grownState.snake.length = secondState.snake.length
          ∨ grownState.snake.length = secondState.snake.length + 1) :=
  have hr : Reachable secondState :=
    Reachable.tick (initState 20 11) secondState [(10, 7)] [] (Reachable.init 20 11) rfl
  ⟨hr, (snake_never_empty.1 secondState hr).1, rfl,
    snake_never_empty.2 secondState grownState [(0, 0)] [] (by decide) rfl⟩

/-- C14: a tick that returns on a snake whose cells are pairwise distinct yields a
snake whose cells are pairwise distinct, and the cells of the snake are pairwise
distinct in every reachable state. -/
theorem snake_cells_distinct :
    (∀ (s s' : gameState) (draws rest : List Draw), s.snake.Nodup →
        updateSnake s draws = .ok (s', rest) → s'.snake.Nodup)
    ∧ ∀ s : gameState, Reachable s → s.snake.Nodup := by
  refine ⟨tick_nodup, ?_⟩
  intro s hr
  induction hr with
  | init tw th => simp [initState]
  | turn s d _ ih => rw [(changeDirection_frame s d).1]; exact ih
  | tick s s' draws rest _ hu ih => exact tick_nodup s s' draws rest ih hu

theorem snake_cells_distinct_witness :
    secondState.snake.Nodup
      ∧ updateSnake secondState [(0, 0)] = .ok (grownState, [])
      ∧ grownState.snake.Nodup :=
  ⟨by decide, rfl, snake_cells_distinct.1 secondState grownState [(0, 0)] [] (by decide) rfl⟩

/-- C15 as stated fails: on a terminal of 2 columns and 2 rows the first tick does not
end the game, yet for every run of draws in range it is still in the loop of
`addheart` and never reaches the commit: `heading` stays `up`, it is not reset to
`none`, and no `changeDirection` call is accepted. -/
theorem first_tick_never_commits :
    tinyStart.heading = direction.up
      ∧ (∀ d : direction, changeDirection tinyStart d = tinyStart)
      ∧ (∀ draws : List Draw, updateSnake tinyStart draws ≠ .error .dead)
      ∧ ∀ draws : List Draw,
          (∀ d ∈ draws, 0 ≤ d.1 ∧ d.1 < tinyStart.width ∧ 0 ≤ d.2 ∧ d.2 < tinyStart.height) →
          updateSnake tinyStart draws = .error .spin :=
  ⟨rfl, fun d => changeDirection_blocked tinyStart d (by decide), tinyStart_not_dead,
    tinyStart_spins⟩

/-- C15, amended: a tick that does not end the game returns at once when food lies
elsewhere, and otherwise with the first draw that is off the snake.  When it returns
it leaves `heading = none` and `lastHeading` equal to the direction used for the move
(the old `heading` if it was not `none`, else the old `lastHeading`); the next
`changeDirection` call is then accepted for every request that is not the opposite of
that direction. -/
theorem tick_commits_heading (s : gameState) :
    (∀ (draws rest : List Draw) (s' : gameState), updateSnake s draws = .ok (s', rest) →
        s'.heading = direction.none
        ∧ s'.lastHeading = (if s.heading ≠ direction.none then s.heading else s.lastHeading)
        ∧ ∀ d : direction, d ≠ opposite s'.lastHeading →
            changeDirection s' d = { s' with heading := d })
    ∧ ∀ (body : List loc) (head : loc), s.snake = body ++ [head] → inGrid s head →
        displace (effectiveHeading s) head ∉ s.snake →
        (∀ (g : loc) (draws : List Draw), s.heart = some g →
            g ≠ displace (effectiveHeading s) head →
            ∃ s' : gameState, updateSnake s draws = .ok (s', draws)
              ∧ s'.heading = direction.none
              ∧ s'.lastHeading
                  = (if s.heading ≠ direction.none then s.heading else s.lastHeading))
        ∧ (∀ (used : List Draw) (d : Draw) (rest : List Draw) (f : loc),
            (s.heart = Option.none ∨ s.heart = some (displace (effectiveHeading s) head)) →
            (∀ u ∈ used, ∃ c ∈ s.snake,
              generateRandomLocation s.width s.height u = .ok (c.x, c.y)) →
            generateRandomLocation s.width s.height d = .ok (f.x, f.y) → f ∉ s.snake →
            ∃ s' : gameState, updateSnake s (used ++ d :: rest) = .ok (s', rest)
              ∧ s'.heading = direction.none
              ∧ s'.lastHeading
                  = (if s.heading ≠ direction.none then s.heading else s.lastHeading))
        ∧ (∀ draws : List Draw,
            (s.heart = Option.none ∨ s.heart = some (displace (effectiveHeading s) head)) →
            (∀ u ∈ draws, ∃ c ∈ s.snake,
              generateRandomLocation s.width s.height u = .ok (c.x, c.y)) →
            updateSnake s draws = .error .spin) := by
  refine ⟨fun draws rest s' h => result_heading s s' draws rest h, ?_⟩
  intro body head hs hg hm
  refine ⟨?_, ?_, ?_⟩
  · intro g draws hh hgne
    exact ⟨_, updateSnake_food_elsewhere s draws body head g hs hg hm hh hgne, rfl, rfl⟩
  · intro used d rest f hh hall hd hf
    rcases hh with hh | hh
    · exact ⟨_, updateSnake_food_absent s body head hs hg hm hh used d rest f hall hd hf,
        rfl, rfl⟩
    · exact ⟨_, updateSnake_food_eaten s body head hs hg hm hh used d rest f hall hd hf,
        rfl, rfl⟩
  · intro draws hh hall
    exact updateSnake_food_pending s body head hs hg hm hh draws hall

theorem tick_commits_heading_witness :
    startState.snake = [] ++ [⟨4, 9⟩] ∧ inGrid startState ⟨4, 9⟩
      ∧ displace (effectiveHeading startState) ⟨4, 9⟩ ∉ startState.snake
      ∧ startState.heart = Option.none
      ∧ (∃ s' : gameState, updateSnake startState ([(4, 9)] ++ (3, 3) :: []) = .ok (s', [])
          ∧ s'.heading = direction.none
          ∧ s'.lastHeading
              = (if startState.heading ≠ direction.none then startState.heading
                  else startState.lastHeading))
      ∧ updateSnake secondState [(0, 0)] = .ok (grownState, [])
      ∧ grownState.heading = direction.none
      ∧ grownState.lastHeading
          = (if secondState.heading ≠ direction.none then secondState.heading
              else secondState.lastHeading) :=
  have h := (tick_commits_heading secondState).1 [(0, 0)] [] grownState rfl
  ⟨rfl, by decide, by decide, rfl,
    ((tick_commits_heading startState).2 [] ⟨4, 9⟩ rfl (by decide) (by decide)).2.1
      [(4, 9)] (3, 3) [] ⟨4, 3⟩ (Or.inl rfl)
      (by
        intro u hu
        rw [List.mem_singleton.1 hu]
        exact ⟨⟨4, 9⟩, by decide, rfl⟩)
      rfl (by decide),
    rfl, h.1, h.2.1⟩

/-- C16: in every state reachable from a state built in `main`, for any terminal
width and height, every snake cell and the food cell, when present, have an even
x-coordinate. -/
theorem x_coordinates_even (s : gameState) (hr : Reachable s) :
    (∀ c ∈ s.snake, c.x % 2 = 0) ∧ (∀ f : loc, s.heart = some f → f.x % 2 = 0) := by
  induction hr with
  | init tw th =>
    refine ⟨initState_even tw th, ?_⟩
    intro f hf
    simp [initState] at hf
  | turn s d _ ih =>
    obtain ⟨h1, h2, -⟩ := changeDirection_frame s d
    rw [h1, h2]
    exact ih
  | tick s s' draws rest _ hu ih =>
    obtain ⟨body, head, hs, -, -, hcase⟩ := updateSnake_ok s s' draws rest hu
    have hhead : head.x % 2 = 0 := ih.1 head (by rw [hs]; simp)
    have hnh := displace_even (effectiveHeading s) head hhead
    have hdrop : ∀ c ∈ s.snake.drop 1, c.x % 2 = 0 :=
      fun c hc => ih.1 c ((List.drop_sublist 1 s.snake).subset hc)
    rcases hcase with ⟨-, f, -, ⟨d, -, hg⟩, rfl⟩ | ⟨-, f, -, ⟨d, -, hg⟩, rfl⟩ | ⟨g, hg, -, -, rfl⟩
    · refine ⟨?_, ?_⟩
      · intro c hc
        rcases List.mem_append.1 hc with hc | hc
        · exact hdrop c hc
        · rw [List.mem_singleton.1 hc]; exact hnh
      · intro f1 hf1
        simp only [Option.some.injEq] at hf1
        rw [← hf1]
        exact generateRandomLocation_even _ _ _ _ _ hg
    · refine ⟨?_, ?_⟩
      · intro c hc
        rcases List.mem_append.1 hc with hc | hc
        · exact ih.1 c hc
        · rw [List.mem_singleton.1 hc]; exact hnh
      · intro f1 hf1
        simp only [Option.some.injEq] at hf1
        rw [← hf1]
        exact generateRandomLocation_even _ _ _ _ _ hg
    · refine ⟨?_, ?_⟩
      · intro c hc
        rcases List.mem_append.1 hc with hc | hc
        · exact hdrop c hc
        · rw [List.mem_singleton.1 hc]; exact hnh
      · intro f1 hf1
        exact ih.2 f1 hf1

theorem x_coordinates_even_witness :
    Reachable grownState
      ∧ (∀ c ∈ grownState.snake, c.x % 2 = 0)
      ∧ (∀ f : loc, grownState.heart = some f → f.x % 2 = 0) :=
  have hr : Reachable grownState :=
    Reachable.tick secondState grownState [(0, 0)] []
      (Reachable.tick (initState 20 11) secondState [(10, 7)] [] (Reachable.init 20 11) rfl) rfl
  ⟨hr, x_coordinates_even grownState hr⟩

/-- C19: in every reachable state the score is the snake length minus 1, so it is
never negative; `changeDirection` keeps the score and a tick that returns never
lowers it. -/
theorem score_is_length_minus_one :
    (∀ s : gameState, Reachable s → s.score = (s.snake.length : Int) - 1 ∧ 0 ≤ s.score)
    ∧ (∀ (s : gameState) (d : direction), (changeDirection s d).score = s.score)
    ∧ ∀ (s s' : gameState) (draws rest : List Draw),
        updateSnake s draws = .ok (s', rest) → s.score ≤ s'.score := by
  refine ⟨?_, fun s d => (changeDirection_frame s d).2.2.1, ?_⟩
  · intro s hr
    have key : s.score = (s.snake.length : Int) - 1 := by
      induction hr with
      | init tw th => simp [initState]
      | turn s d _ ih =>
        obtain ⟨h1, -, h3, -⟩ := changeDirection_frame s d
        rw [h1, h3]; exact ih
      | tick s s' draws rest _ hu ih =>
        rcases tick_length s s' draws rest hu with ⟨h1, h2⟩ | ⟨h1, h2⟩
        · rw [h1, h2]; exact ih
        · rw [h1, h2, ih]; push_cast; ring
    refine ⟨key, ?_⟩
    have hne := reachable_nonempty s hr
    have : 1 ≤ s.snake.length := by
      cases hsn : s.snake with
      | nil => exact absurd hsn hne
      | cons a b => simp
    omega
  · intro s s' draws rest hu
    rcases tick_length s s' draws rest hu with ⟨-, h2⟩ | ⟨-, h2⟩ <;> omega

theorem score_is_length_minus_one_witness :
    Reachable grownState
      ∧ grownState.score = (grownState.snake.length : Int) - 1 ∧ 0 ≤ grownState.score
      ∧ updateSnake secondState [(0, 0)] = .ok (grownState, [])
      ∧ secondState.score ≤ grownState.score :=
  have hr : Reachable grownState :=
    Reachable.tick secondState grownState [(0, 0)] []
      (Reachable.tick (initState 20 11) secondState [(10, 7)] [] (Reachable.init 20 11) rfl) rfl
  have h := score_is_length_minus_one.1 grownState hr
  ⟨hr, h.1, h.2, rfl, score_is_length_minus_one.2.2 secondState grownState [(0, 0)] [] rfl⟩

/-- C17 as stated fails: on a terminal of 2 columns and 2 rows the head `(0,0)` is
inside the grid and the stepped head `(0,-1)` is outside it and on no snake cell, yet
the first tick never returns, because every draw in range generates the cell `(0,0)`
of the snake and `addheart` rejects it; no snake with its head outside is left. -/
theorem late_bounds_tick_spins :
    tinyStart.snake = [] ++ [⟨0, 0⟩] ∧ inGrid tinyStart ⟨0, 0⟩
      ∧ ¬ inGrid tinyStart (displace (effectiveHeading tinyStart) ⟨0, 0⟩)
      ∧ displace (effectiveHeading tinyStart) ⟨0, 0⟩ ∉ tinyStart.snake
      ∧ updateSnake tinyStart [(0, 0), (1, 0)] = .error .spin
      ∧ ∀ draws : List Draw,
          (∀ d ∈ draws, 0 ≤ d.1 ∧ d.1 < tinyStart.width ∧ 0 ≤ d.2 ∧ d.2 < tinyStart.height) →
          updateSnake tinyStart draws = .error .spin := by
  refine ⟨rfl, by decide, by decide, by decide, rfl, ?_⟩
  intro draws hr
  have hspin : addheart tinyStart draws = .error .spin :=
    addheart_all_rejected tinyStart draws (fun u hu => tinyStart_draw_on_snake u (hr u hu))
  rw [updateSnake_eq tinyStart draws [] ⟨0, 0⟩ rfl, if_neg (by decide), if_neg (by decide)]
  have hheart : tinyStart.heart = Option.none := rfl
  rw [hheart]
  simp only []
  rw [hspin]

/-- C17, amended: when the head is inside the grid and the stepped head is outside it
and on no snake cell, the tick does not end the game; it returns at once if food lies
elsewhere, and otherwise with the first draw that is off the snake.  When it returns,
the snake it leaves has its head outside the grid, and the following tick ends the
game whatever `changeDirection` calls come in between. -/
theorem late_bounds_detection (s : gameState) (body : List loc) (head : loc)
    (hs : s.snake = body ++ [head]) (hg : inGrid s head)
    (hout : ¬ inGrid s (displace (effectiveHeading s) head))
    (hfree : displace (effectiveHeading s) head ∉ s.snake) :
    (∀ draws : List Draw, updateSnake s draws ≠ .error .dead
        ∧ updateSnake s draws ≠ .error .crash)
    ∧ (∀ (g : loc) (draws : List Draw), s.heart = some g →
        g ≠ displace (effectiveHeading s) head →
        ∃ s' : gameState, updateSnake s draws = .ok (s', draws))
    ∧ (∀ (used : List Draw) (d : Draw) (rest : List Draw) (f : loc),
        (∀ u ∈ used, ∃ c ∈ s.snake,
          generateRandomLocation s.width s.height u = .ok (c.x, c.y)) →
        generateRandomLocation s.width s.height d = .ok (f.x, f.y) → f ∉ s.snake →
        ∃ (s' : gameState) (left : List Draw),
          updateSnake s (used ++ d :: rest) = .ok (s', left))
    ∧ ∀ (draws rest : List Draw) (s' : gameState), updateSnake s draws = .ok (s', rest) →
        s'.snake.getLast? = some (displace (effectiveHeading s) head)
        ∧ ¬ inGrid s' (displace (effectiveHeading s) head)
        ∧ ∀ (ds : List direction) (draws2 : List Draw),
            updateSnake (ds.foldl changeDirection s') draws2 = .error .dead := by
  have hne : s.snake ≠ [] := by rw [hs]; simp
  refine ⟨?_, ?_, ?_, ?_⟩
  · intro draws
    refine ⟨?_, updateSnake_ne_crash s draws hne⟩
    intro hdead
    rcases (tick_dead_iff s draws body head hs).1 hdead with h | h
    · exact h hg
    · exact hfree h
  · intro g draws hh hgne
    rw [updateSnake_eq s draws body head hs, if_neg (not_not.2 hg), if_neg hfree, hh]
    simp only []
    rw [if_neg (fun e => hgne e.symm)]
    exact ⟨_, rfl⟩
  · intro used d rest f hall hd hf
    rw [updateSnake_eq s (used ++ d :: rest) body head hs, if_neg (not_not.2 hg),
      if_neg hfree]
    cases hh : s.heart with
    | none =>
      simp only []
      have := addheart_first_free s d rest f hd hf used hall
      rw [this]
      exact ⟨_, _, rfl⟩
    | some g =>
      simp only []
      split
      · have := addheart_first_free { s with score := s.score + 1 } d rest f hd hf used hall
        simp only [] at this
        rw [hh] at this
        rw [this]
        exact ⟨_, _, rfl⟩
      · exact ⟨_, _, rfl⟩
  · intro draws rest s' hu
    obtain ⟨body1, head1, hs1, -, -, hw, hh, -, -, hc⟩ := updateSnake_shape s s' draws rest hu
    have hhead : head1 = head := by
      rw [hs] at hs1
      have := List.append_inj' hs1 rfl
      simpa using this.2.symm
    rw [hhead] at hc
    have hsn : ∃ r : List loc, s'.snake = r ++ [displace (effectiveHeading s) head] := by
      rcases hc with ⟨h1, -⟩ | ⟨h1, -⟩
      · exact ⟨_, h1⟩
      · exact ⟨_, h1⟩
    obtain ⟨r, hr⟩ := hsn
    have hout' : ¬ inGrid s' (displace (effectiveHeading s) head) := by
      unfold inGrid at hout ⊢
      rw [hw, hh]
      exact hout
    refine ⟨by simp [hr], hout', ?_⟩
    intro ds draws2
    obtain ⟨f1, f2, f3⟩ := changeDirection_run_frame ds s'
    apply updateSnake_outside _ draws2 r (displace (effectiveHeading s) head) (by rw [f1, hr])
    unfold inGrid at hout' ⊢
    rw [f2, f3]
    exact hout'

theorem late_bounds_detection_witness :
    edgeState.snake = [] ++ [⟨8, 9⟩] ∧ inGrid edgeState ⟨8, 9⟩
      ∧ ¬ inGrid edgeState (displace (effectiveHeading edgeState) ⟨8, 9⟩)
      ∧ displace (effectiveHeading edgeState) ⟨8, 9⟩ ∉ edgeState.snake
      ∧ updateSnake edgeState [] = .ok (overEdgeState, [])
      ∧ updateSnake
          ([direction.up, direction.left].foldl changeDirection overEdgeState) [(0, 0)]
          = .error .dead :=
  ⟨rfl, by decide, by decide, by decide, rfl,
    ((late_bounds_detection edgeState [] ⟨8, 9⟩ rfl (by decide) (by decide) (by decide)).2.2.2
      [] [] overEdgeState rfl).2.2 [direction.up, direction.left] [(0, 0)]⟩

/-- C18: `addheart` is unbounded rejection sampling.  It returns the location of the
first draw that is not on the snake, it returns only if there is such a draw, and
when every location `generateRandomLocation` can produce for the grid is a snake
cell, every run of draws is rejected and `addheart` does not return. -/
theorem addheart_rejection_sampling (s : gameState) :
    (∀ (used : List Draw) (d : Draw) (rest : List Draw) (f : loc),
        (∀ u ∈ used, ∃ c ∈ s.snake,
          generateRandomLocation s.width s.height u = .ok (c.x, c.y)) →
        generateRandomLocation s.width s.height d = .ok (f.x, f.y) → f ∉ s.snake →
        addheart s (used ++ d :: rest) = .ok ({ s with heart := some f }, rest))
    ∧ (∀ (draws rest : List Draw) (s' : gameState), addheart s draws = .ok (s', rest) →
        ∃ (used : List Draw) (d : Draw) (f : loc),
          draws = used ++ d :: rest
          ∧ generateRandomLocation s.width s.height d = .ok (f.x, f.y)
          ∧ f ∉ s.snake
          ∧ (∀ u ∈ used, ∃ c ∈ s.snake,
              generateRandomLocation s.width s.height u = .ok (c.x, c.y))
          ∧ s' = { s with heart := some f })
    ∧ ((∀ rx ry x y : Int, 0 ≤ rx → rx < s.width → 0 ≤ ry → ry < s.height →
          generateRandomLocation s.width s.height (rx, ry) = .ok (x, y) →
          (⟨x, y⟩ : loc) ∈ s.snake) →
        ∀ draws : List Draw,
          (∀ d ∈ draws, 0 ≤ d.1 ∧ d.1 < s.width ∧ 0 ≤ d.2 ∧ d.2 < s.height) →
          addheart s draws = .error .spin
          ∧ ∀ (s' : gameState) (rest : List Draw), addheart s draws ≠ .ok (s', rest)) := by
  refine ⟨?_, ?_, ?_⟩
  · intro used d rest f hall hd hf
    exact addheart_first_free s d rest f hd hf used hall
  · intro draws rest s' h
    obtain ⟨used, d, f, h1, h2, h3, h4, h5⟩ := addheart_ok s draws rest s' h
    refine ⟨used, d, f, h1, h2, h3, ?_, h5⟩
    intro u hu
    obtain ⟨c, hc1, hc2⟩ := h4 u hu
    exact ⟨c, hc2, hc1⟩
  · intro hfull draws hrange
    have hspin : addheart s draws = .error .spin := by
      apply addheart_all_rejected
      intro u hu
      obtain ⟨h1, h2, h3, h4⟩ := hrange u hu
      obtain ⟨x, y, hg⟩ := generateRandomLocation_pos s.width s.height u (by omega) (by omega)
      exact ⟨⟨x, y⟩, hfull u.1 u.2 x y h1 h2 h3 h4 hg, hg⟩
    refine ⟨hspin, ?_⟩
    intro s' rest h
    rw [hspin] at h
    exact absurd h (by simp)

theorem addheart_rejection_sampling_witness :
    addheart startState ([(4, 9), (3, 9)] ++ (3, 3) :: [(1, 1)])
        = .ok ({ startState with heart := some ⟨4, 3⟩ }, [(1, 1)])
      ∧ addheart fullState [(0, 0), (1, 0), (0, 0)] = .error .spin :=
  ⟨(addheart_rejection_sampling startState).1 [(4, 9), (3, 9)] (3, 3) [(1, 1)] ⟨4, 3⟩
      (by
        intro u hu
        simp only [List.mem_cons, List.mem_singleton, List.not_mem_nil, or_false] at hu
        rcases hu with rfl | rfl
        · exact ⟨⟨4, 9⟩, by decide, rfl⟩
        · exact ⟨⟨4, 9⟩, by decide, rfl⟩)
      rfl (by decide),
    ((addheart_rejection_sampling fullState).2.2
      (by
        intro rx ry x y h1 h2 h3 h4 hg
        have hw : fullState.width = 2 := rfl
        have hh : fullState.height = 1 := rfl
        rw [hw] at h2
        rw [hh] at h4
        have hry : ry = 0 := by omega
        have hrx : rx = 0 ∨ rx = 1 := by omega
        rcases hrx with rfl | rfl <;> subst hry <;>
          · have : (Except.ok (0, 0) : Except Stop (Int × Int)) = .ok (x, y) := hg
            simp only [Except.ok.injEq, Prod.mk.injEq] at this
            rw [← this.1, ← this.2]
            decide)
      [(0, 0), (1, 0), (0, 0)] (by decide)).1⟩

end Snake
